import Mathlib

/-!
Verification development for the two auto-trader variants of this repository:
`dynamic_spread.py` (volatility-adaptive quoting, 50-sample window) and
`rolling_regression.py` (regression/hedge-ratio quoting, 10-sample windows).
The two files share their infrastructure verbatim: the `throttler` decorator,
the order-tracker fields (`bids`, `asks`, `bidq`, `askq`), `position`,
`hedge_balance`, `hedge_time`, `check_hedge`, `on_order_filled_message`,
`on_order_status_message`, `on_error_message` and `adjust_price`.

Modelling conventions:
* Python ints become `ℤ`/`ℕ`; Python floats become `ℚ` (the float arithmetic of
  the source is modelled exactly over the rationals).
* `np.std(recent_prices)` and `(abs(position)/POSITION_LIMIT) ** 0.02` in
  `dynamic_spread.py` are real-valued (square root / real power); the handler
  takes their values as explicit rational parameters `vol` and `pf`.  Every
  downstream field of the state is a piecewise-constant function of these two
  reals with rational breakpoints, so every concretely reachable state is
  realised by rational parameter values, and theorems quantify over them.
* The comparisons of `rolling_regression.py` against `mean ± np.std` are
  modelled without square roots via the exact equivalence
  `m + Real.sqrt v < a ↔ 0 < a - m ∧ v < (a - m)^2` (for `0 ≤ v`), proved
  below as `sqrt_band_iff`.
* Python `deque(maxlen=n)` becomes a list (oldest first) with eviction on
  append; Python sets become `Finset ℕ`.
* Each call of a gateway primitive (`send_insert_order`, `send_cancel_order`,
  `send_hedge_order`) is recorded as an `GwCall`; handlers return
  `State × List GwCall`.
* `time.time()` / `time.monotonic()` readings are rational parameters; an
  order-book handler performs up to two throttled sends, whose two clock
  readings are the parameters `nowB` and `nowA`.
-/

/-- Source `LOT_SIZE = 10` of both source files. -/
def LOT_SIZE : ℤ := 10

/-- Source `POSITION_LIMIT = 100` of both source files. -/
def POSITION_LIMIT : ℤ := 100

/-- Source `TICK_SIZE_IN_CENTS = 100` of both source files. -/
def TICK_SIZE_IN_CENTS : ℤ := 100

/-- Modelled from the spec: `MINIMUM_BID` is a venue constant imported from
the external `ready_trader_go` gateway package (not part of this repository);
its venue value is 1. -/
def MINIMUM_BID : ℤ := 1

/-- Modelled from the spec: `MAXIMUM_ASK` is a venue constant imported from
the external `ready_trader_go` gateway package (not part of this repository);
its venue value is 2^31 - 1. -/
def MAXIMUM_ASK : ℤ := 2147483647

/-- Source `MIN_BID_NEAREST_TICK = (MINIMUM_BID + TICK_SIZE_IN_CENTS) // TICK_SIZE_IN_CENTS * TICK_SIZE_IN_CENTS`. -/
def MIN_BID_NEAREST_TICK : ℤ :=
  (MINIMUM_BID + TICK_SIZE_IN_CENTS).fdiv TICK_SIZE_IN_CENTS * TICK_SIZE_IN_CENTS

/-- Source `MAX_ASK_NEAREST_TICK = MAXIMUM_ASK // TICK_SIZE_IN_CENTS * TICK_SIZE_IN_CENTS`. -/
def MAX_ASK_NEAREST_TICK : ℤ :=
  MAXIMUM_ASK.fdiv TICK_SIZE_IN_CENTS * TICK_SIZE_IN_CENTS

/-- Source `HEDGE_BOUNDARY = 10` of both source files. -/
def HEDGE_BOUNDARY : ℤ := 10

/-- Source `HEDGE_TIME_LIMIT = 58` of both source files. -/
def HEDGE_TIME_LIMIT : ℚ := 58

/-- Source `MAKER_FEE = 0.0001` of both source files. -/
def MAKER_FEE : ℚ := 1/10000

/-- Source `TAKER_FEE = 0.0002` of both source files. -/
def TAKER_FEE : ℚ := 2/10000

/-- Source `ORDER_THRESHOLD = 50` of `dynamic_spread.py`. -/
def ORDER_THRESHOLD : ℤ := 50

/-- Source `REBALANCING_THRESHOLD = 80` of `dynamic_spread.py`. -/
def REBALANCING_THRESHOLD : ℤ := 80

/-- Source `CONSERVATIVE_SPREAD = 0.002` of `rolling_regression.py`. -/
def CONSERVATIVE_SPREAD : ℚ := 2/1000

/-- Source `NORMAL_SPREAD = 0.001` of `rolling_regression.py`. -/
def NORMAL_SPREAD : ℚ := 1/1000

/-- Source `Instrument.FUTURE = 0` of the gateway enum. -/
def FUTURE : ℕ := 0

/-- Source `Instrument.ETF = 1` of the gateway enum. -/
def ETF : ℕ := 1

/-- The order side of the gateway enum (`Side.BUY`/`Side.BID` versus
`Side.SELL`/`Side.ASK`). -/
inductive Side where
  | buy : Side
  | sell : Side
deriving DecidableEq

/-- One call of a gateway primitive: `send_insert_order`, `send_cancel_order`
or `send_hedge_order`. -/
inductive GwCall where
  | insert (id : ℕ) (side : Side) (price : ℤ) (volume : ℤ) : GwCall
  | cancel (id : ℕ) : GwCall
  | hedge (id : ℕ) (side : Side) (price : ℤ) (volume : ℤ) : GwCall
deriving DecidableEq

/-- The guard of the `throttler` decorator's `wrapper` (both files, identical):
with `max_calls = 47` and `interval = 1`, the call is rejected exactly when
`len(call_times) == max_calls and now - call_times[0] < interval`.
The deque is modelled as a list of timestamps, oldest first. -/
def throttler_allow (deq : List ℚ) (now : ℚ) : Bool :=
  !(deq.length == 47 && decide (now - deq.headI < 1))

/-- Source `call_times.append(now)` on a `deque(maxlen=47)`: when the deque is full
the oldest (leftmost) entry is evicted. -/
def throttler_record (deq : List ℚ) (now : ℚ) : List ℚ :=
  if 47 ≤ deq.length then deq.tail ++ [now] else deq ++ [now]

/-- Run the throttler over a sequence of call times (the successive
`time.monotonic()` readings), returning the sub-sequence of accepted calls.
A rejected call leaves the deque untouched; an accepted call records its
time. -/
def throttlerRun (deq : List ℚ) : List ℚ → List ℚ
  | [] => []
  | now :: rest =>
    if throttler_allow deq now then now :: throttlerRun (throttler_record deq now) rest
    else throttlerRun deq rest

/-- The last `n` elements of a list: the contents of a `deque(maxlen=n)`
after appending the whole list. -/
def lastN (n : ℕ) (l : List ℚ) : List ℚ := l.drop (l.length - n)

/-- Any 48 consecutive accepted timestamps span at least one second: the
no-more-than-47-per-trailing-second property in index form. -/
def Spaced (l : List ℚ) : Prop :=
  ∀ i : ℕ, (h : i + 47 < l.length) → l[i] + 1 ≤ l[i + 47]

/-- Source `adjust_price` (both files): `int(price // TICK_SIZE_IN_CENTS) * TICK_SIZE_IN_CENTS`.
Python `//` on a float is the floor, and `int` of an already-floored float is
exact, so the result is `⌊p / 100⌋ * 100`. -/
def adjust_price (p : ℚ) : ℤ := ⌊p / 100⌋ * 100

/-- Source `deque(maxlen=cap)` append for the rolling price windows. -/
def pushWindow {α : Type} (cap : ℕ) (l : List α) (x : α) : List α :=
  if cap ≤ l.length then l.tail ++ [x] else l ++ [x]

/-- Source `np.mean` of a list of rationals (0 on the empty list, unused there). -/
def listMean (l : List ℚ) : ℚ := l.sum / (l.length : ℚ)

/-- The square of `np.std` (population variance, `ddof = 0`). -/
def listVar (l : List ℚ) : ℚ :=
  ((l.map (fun x => (x - listMean l)^2)).sum) / (l.length : ℚ)

/-- The least-squares slope of `y` on `x`: `np.polyfit(x, y, deg=1)[0]`,
computed exactly by the degree-one normal equations. -/
def lsSlope (x y : List ℚ) : ℚ :=
  let n : ℚ := (x.length : ℚ)
  let sx := x.sum
  let sy := y.sum
  let sxy := (x.zipWith (· * ·) y).sum
  let sxx := (x.map (fun a => a * a)).sum
  (n * sxy - sx * sy) / (n * sxx - sx * sx)

/-- Source `calculate_hedge_ratio` of `rolling_regression.py` (lines 67-74):
`None` unless both windows hold at least `HEDGE_RATIO_LOOKBACK = 10` samples,
otherwise the `np.polyfit(etf, fut, deg=1)` slope. -/
def calculate_hedge_slope (etf fut : List ℤ) : Option ℚ :=
  if etf.length < 10 ∨ fut.length < 10 then none
  else some (lsSlope (etf.map (fun z => (z : ℚ))) (fut.map (fun z => (z : ℚ))))

/-- Which band of `mean(spread) ± std(spread)` the latest spread sample is in. -/
inductive SpreadClass where
  | rich : SpreadClass
  | cheap : SpreadClass
  | normal : SpreadClass
deriving DecidableEq

/-- The branch taken by lines 92-100 of `rolling_regression.py`.
`spread[-1] > mean + std` and `spread[-1] < mean - std` are rendered without
the square root via `sqrt_band_iff` below: for `s = √v` with `0 ≤ v`,
`m + s < a ↔ 0 < a - m ∧ v < (a - m)^2`. -/
def classifySpread (spread : List ℚ) : SpreadClass :=
  match spread.getLast? with
  | none => SpreadClass.normal
  | some last =>
    let m := listMean spread
    let v := listVar spread
    if 0 < last - m ∧ v < (last - m)^2 then SpreadClass.rich
    else if 0 < m - last ∧ v < (m - last)^2 then SpreadClass.cheap
    else SpreadClass.normal

/-- The mutable fields of `AutoTrader` shared by the two variants, plus the
rolling windows of each variant and the two throttler deques. -/
structure State where
  bids : Finset ℕ
  asks : Finset ℕ
  position : ℤ
  hedge_balance : ℤ
  hedge_time : Option ℚ
  bidq : List ℕ
  askq : List ℕ
  recent_prices : List ℤ
  etf_prices : List ℤ
  fut_prices : List ℤ
  next_id : ℕ
  send_times : List ℚ
  cancel_times : List ℚ
deriving DecidableEq

/-- The state built by `AutoTrader.__init__` (`itertools.count(1)` starts the
id counter at 1). -/
def initState : State :=
  { bids := ∅, asks := ∅, position := 0, hedge_balance := 0, hedge_time := none,
    bidq := [], askq := [], recent_prices := [], etf_prices := [], fut_prices := [],
    next_id := 1, send_times := [], cancel_times := [] }

/-- Source `send_throttled` (both files). The decorator records `now` whenever the
call is accepted, even if the body then returns early because the side's queue
already holds 4 orders; otherwise the body appends the id to the side's queue
and set and calls `send_insert_order`.  A throttler-rejected call changes
nothing and sends nothing. -/
def send_throttled (s : State) (now : ℚ) (id : ℕ) (side : Side) (price volume : ℤ) :
    State × List GwCall :=
  if throttler_allow s.send_times now then
    let s1 := { s with send_times := throttler_record s.send_times now }
    match side with
    | Side.buy =>
      if 4 ≤ s1.bidq.length then (s1, [])
      else ({ s1 with bidq := s1.bidq ++ [id], bids := insert id s1.bids },
            [GwCall.insert id Side.buy price volume])
    | Side.sell =>
      if 4 ≤ s1.askq.length then (s1, [])
      else ({ s1 with askq := s1.askq ++ [id], asks := insert id s1.asks },
            [GwCall.insert id Side.sell price volume])
  else (s, [])

/-- Lines 106-108 of `dynamic_spread.py` / 110-112 of `rolling_regression.py`:
when the bid queue is at capacity 4, pop its oldest id and request a gateway
cancel for it (directly via `send_cancel_order`, not throttled). -/
def evictBid (s : State) : State × List GwCall :=
  if 4 ≤ s.bidq.length then ({ s with bidq := s.bidq.tail }, [GwCall.cancel s.bidq.headI])
  else (s, [])

/-- Lines 109-111 of `dynamic_spread.py` / 113-115 of `rolling_regression.py`:
the ask-side analogue of `evictBid`. -/
def evictAsk (s : State) : State × List GwCall :=
  if 4 ≤ s.askq.length then ({ s with askq := s.askq.tail }, [GwCall.cancel s.askq.headI])
  else (s, [])

/-- One guarded submission (lines 113-121 of `dynamic_spread.py` / 117-125 of
`rolling_regression.py`): when the price is nonzero and capacity remains, draw
the next id from the counter and send through the throttler. -/
def submitSide (s : State) (cond : Prop) [Decidable cond] (now : ℚ) (side : Side)
    (price vol : ℤ) : State × List GwCall :=
  if cond then send_throttled { s with next_id := s.next_id + 1 } now s.next_id side price vol
  else (s, [])

/-- Source `remaining_long` (lines 101-103 of `dynamic_spread.py` / 105-107 of
`rolling_regression.py`): buy capacity left after position and queued bid
volume. -/
def remainingLong (s : State) : ℤ :=
  max 0 (POSITION_LIMIT - s.position - (s.bidq.length : ℤ) * LOT_SIZE)

/-- Source `remaining_short`: sell capacity left after position and queued ask
volume. -/
def remainingShort (s : State) : ℤ :=
  max 0 (POSITION_LIMIT + s.position - (s.askq.length : ℤ) * LOT_SIZE)

/-- The common tail of both order-book handlers (`dynamic_spread.py` lines
101-121, `rolling_regression.py` lines 105-125): exposure accounting over the
pre-eviction queue lengths, eviction plus gateway cancel of the oldest queued
id on each side at capacity 4, then the throttled bid and ask submissions,
consuming one id from the counter per attempted side. -/
def quoteCycle (s : State) (nb na : ℤ) (nowB nowA : ℚ) : State × List GwCall :=
  let ev1 := evictBid s
  let ev2 := evictAsk ev1.1
  let sb := submitSide ev2.1 (nb ≠ 0 ∧ 0 < remainingLong s) nowB Side.buy nb
    (min LOT_SIZE (remainingLong s))
  let sa := submitSide sb.1 (na ≠ 0 ∧ 0 < remainingShort s) nowA Side.sell na
    (min LOT_SIZE (remainingShort s))
  (sa.1, ev1.2 ++ ev2.2 ++ sb.2 ++ sa.2)

/-- Lines 82-99 of `dynamic_spread.py`: the candidate (bid, ask) prices from
the mid-price, the volatility `vol` (the value of `np.std` after the append),
the position factor `pf` (the value of `calculate_position_factor`), and the
current position: base spread plus half the volatility-to-mid ratio, skewed by
the position factor beyond `ORDER_THRESHOLD`, tick-rounded, then pulled
halfway together beyond `REBALANCING_THRESHOLD`. -/
def dynPrices (position : ℤ) (mid : ℤ) (vol pf : ℚ) : ℤ × ℤ :=
  let m : ℚ := (mid : ℚ)
  let base : ℚ := 1/1000 + (TAKER_FEE - MAKER_FEE)
  let sp : ℚ := base + (1/2) * (vol / m)
  let raw : ℚ × ℚ :=
    if ORDER_THRESHOLD < position then (m * (1 - sp * pf), m * (1 + sp))
    else if position < -ORDER_THRESHOLD then (m * (1 - sp), m * (1 + sp * pf))
    else (m * (1 - sp), m * (1 + sp))
  let nb0 : ℤ := adjust_price raw.1
  let na0 : ℤ := adjust_price raw.2
  if REBALANCING_THRESHOLD ≤ position then
    (nb0, adjust_price ((na0 : ℚ) - ((na0 : ℚ) - (nb0 : ℚ)) * (1/2)))
  else if position ≤ -REBALANCING_THRESHOLD then
    (adjust_price ((nb0 : ℚ) + ((na0 : ℚ) - (nb0 : ℚ)) * (1/2)), na0)
  else (nb0, na0)

/-- Source `on_order_book_update_message` of `dynamic_spread.py` (lines 76-121).
`vol` is the value of `np.std(self.recent_prices)` after the append, and `pf`
the value of `calculate_position_factor(self.position)`; both are real-valued
in the source and passed here as rational parameters. -/
def dyn_on_order_book_update (s : State) (instrument : ℕ) (bid0 ask0 : ℤ)
    (vol pf : ℚ) (nowB nowA : ℚ) : State × List GwCall :=
  if instrument = FUTURE ∧ 0 < bid0 ∧ 0 < ask0 then
    let mid : ℤ := (bid0 + ask0).fdiv 2
    let s := { s with recent_prices := pushWindow 50 s.recent_prices mid }
    let pr := dynPrices s.position mid vol pf
    quoteCycle s pr.1 pr.2 nowB nowA
  else (s, [])

/-- Line 90 of `rolling_regression.py`: the spread series
`etf[i] - r * fut[i]` over the aligned window samples. -/
def regSpread (etf fut : List ℤ) (r : ℚ) : List ℚ :=
  (etf.map (fun z => (z : ℚ))).zipWith (fun e f => e - r * f) (fut.map (fun z => (z : ℚ)))

/-- Lines 92-103 of `rolling_regression.py`: the (bid, ask) quote prices for a
spread classification, tick-rounded (the source applies `adjust_price`
twice; rounding is idempotent but the model mirrors the double call). -/
def regPrices (cls : SpreadClass) (mid : ℤ) : ℤ × ℤ :=
  let m : ℚ := (mid : ℚ)
  let raw : ℚ × ℚ :=
    match cls with
    | SpreadClass.rich => (m * (1 - NORMAL_SPREAD), m * (1 + CONSERVATIVE_SPREAD))
    | SpreadClass.cheap => (m * (1 - CONSERVATIVE_SPREAD), m * (1 + NORMAL_SPREAD))
    | SpreadClass.normal => (m * (1 - NORMAL_SPREAD), m * (1 + NORMAL_SPREAD))
  (adjust_price ((adjust_price raw.1 : ℚ)), adjust_price ((adjust_price raw.2 : ℚ)))

/-- Lines 81-84 of `rolling_regression.py`: append the mid-price to the
window of the updating instrument. -/
def regWindowUpdate (s : State) (instrument : ℕ) (mid : ℤ) : State :=
  if instrument = ETF then { s with etf_prices := pushWindow 10 s.etf_prices mid }
  else if instrument = FUTURE then { s with fut_prices := pushWindow 10 s.fut_prices mid }
  else s

/-- Source `on_order_book_update_message` of `rolling_regression.py` (lines 76-125).
Returns early only when BOTH top-of-book prices are non-positive; otherwise
appends the mid-price to the matching instrument's window, and quotes only on
a FUTURE update once both windows hold 10 samples. -/
def reg_on_order_book_update (s : State) (instrument : ℕ) (bid0 ask0 : ℤ)
    (nowB nowA : ℚ) : State × List GwCall :=
  if bid0 ≤ 0 ∧ ask0 ≤ 0 then (s, [])
  else
    let mid : ℤ := (bid0 + ask0).fdiv 2
    let s := regWindowUpdate s instrument mid
    match calculate_hedge_slope s.etf_prices s.fut_prices with
    | none => (s, [])
    | some r =>
      if instrument = FUTURE ∧ 0 < s.etf_prices.length ∧ 0 < s.fut_prices.length then
        let pr := regPrices (classifySpread (regSpread s.etf_prices s.fut_prices r)) mid
        quoteCycle s pr.1 pr.2 nowB nowA
      else (s, [])

/-- Source `check_hedge` (both files): when the timer is set, more than
`HEDGE_TIME_LIMIT = 58` has elapsed and the balance is strictly outside
`[-10, 10]`, send one aggressive hedge order of size `|balance| - 10` (a buy
at `MAX_ASK_NEAREST_TICK` when positive, a sell at `MIN_BID_NEAREST_TICK` when
negative), pin the balance to `±10` and clear the timer; otherwise do
nothing.  The self-rescheduling `call_later(1, ...)` has no state effect. -/
def check_hedge (s : State) (now : ℚ) : State × List GwCall :=
  match s.hedge_time with
  | none => (s, [])
  | some t =>
    if HEDGE_TIME_LIMIT < now - t ∧
        (HEDGE_BOUNDARY < s.hedge_balance ∨ s.hedge_balance < -HEDGE_BOUNDARY) then
      if 0 < s.hedge_balance then
        ({ s with hedge_balance := HEDGE_BOUNDARY, hedge_time := none,
                  next_id := s.next_id + 1 },
         [GwCall.hedge s.next_id Side.buy MAX_ASK_NEAREST_TICK (|s.hedge_balance| - HEDGE_BOUNDARY)])
      else
        ({ s with hedge_balance := -HEDGE_BOUNDARY, hedge_time := none,
                  next_id := s.next_id + 1 },
         [GwCall.hedge s.next_id Side.sell MIN_BID_NEAREST_TICK (|s.hedge_balance| - HEDGE_BOUNDARY)])
    else (s, [])

/-- Source `on_order_filled_message` (both files): attribute the fill via the side's
set or queue, update `position` and `hedge_balance` by the signed volume, then
run the timer logic on the pre-fill balance `pre` and the updated balance. -/
def on_order_filled_message (s : State) (id : ℕ) (v : ℤ) (now : ℚ) : State :=
  let pre := s.hedge_balance
  let pb : ℤ × ℤ :=
    if id ∈ s.bids ∨ id ∈ s.bidq then (s.position + v, s.hedge_balance - v)
    else if id ∈ s.asks ∨ id ∈ s.askq then (s.position - v, s.hedge_balance + v)
    else (s.position, s.hedge_balance)
  let time' : Option ℚ :=
    if -HEDGE_BOUNDARY ≤ pb.2 ∧ pb.2 ≤ HEDGE_BOUNDARY then none
    else if (0 < pre ∧ pb.2 < 0) ∨ (pre < 0 ∧ 0 < pb.2) then some now
    else if (HEDGE_BOUNDARY < pb.2 ∨ pb.2 < -HEDGE_BOUNDARY) ∧ s.hedge_time = none then some now
    else s.hedge_time
  { s with position := pb.1, hedge_balance := pb.2, hedge_time := time' }

/-- Source `on_order_status_message` (both files): on `remaining_volume == 0`, drop
the id from its side's set (`set.discard`) and queue (`deque.remove`, which
removes the first occurrence and is a no-op here when absent). -/
def on_order_status_message (s : State) (id : ℕ) (fillVol remaining fees : ℤ) : State :=
  if remaining = 0 then
    if id ∈ s.bids ∨ id ∈ s.bidq then
      { s with bids := s.bids.erase id, bidq := s.bidq.erase id }
    else if id ∈ s.asks ∨ id ∈ s.askq then
      { s with asks := s.asks.erase id, askq := s.askq.erase id }
    else s
  else s

/-- Source `on_error_message` (both files): for a nonzero id known to either side's
set, replay a full-completion status. -/
def on_error_message (s : State) (id : ℕ) : State :=
  if id ≠ 0 ∧ (id ∈ s.bids ∨ id ∈ s.asks) then on_order_status_message s id 0 0 0 else s

/-- The timed `cancel_order` of `dynamic_spread.py` (lines 68-70).  Its body
is `self.cancel_order(client_order_id)`: it re-enters its own throttled
wrapper and never calls the gateway primitive `send_cancel_order`.  `ts` is
the sequence of `time.monotonic()` readings of the successive re-entries; the
recursion stops when the throttler rejects (or the modelled readings run out).
The returned actions are the gateway calls performed: there are none. -/
def cancel_order_run : List ℚ → List ℚ → List ℚ × List GwCall
  | [], deq => (deq, [])
  | now :: rest, deq =>
    if throttler_allow deq now then cancel_order_run rest (throttler_record deq now)
    else (deq, [])

/-- One externally triggered callback of the core: an order-book update of
either variant (the two variants share every other handler verbatim), a fill,
a status, an error, the periodic `check_hedge` timer, or a timer-fired
`cancel_order` of the volatility variant. -/
inductive Event where
  | obookDyn (instrument : ℕ) (bid0 ask0 : ℤ) (vol pf : ℚ) (nowB nowA : ℚ) : Event
  | obookReg (instrument : ℕ) (bid0 ask0 : ℤ) (nowB nowA : ℚ) : Event
  | fill (id : ℕ) (v : ℤ) (now : ℚ) : Event
  | status (id : ℕ) (fillVol remaining fees : ℤ) : Event
  | error (id : ℕ) : Event
  | hedgeCheck (now : ℚ) : Event
  | timedCancel (ts : List ℚ) : Event
deriving Repr

/-- Dispatch one event. -/
def step (s : State) : Event → State × List GwCall
  | Event.obookDyn instrument b a vol pf nB nA => dyn_on_order_book_update s instrument b a vol pf nB nA
  | Event.obookReg instrument b a nB nA => reg_on_order_book_update s instrument b a nB nA
  | Event.fill id v now => (on_order_filled_message s id v now, [])
  | Event.status id fv r fees => (on_order_status_message s id fv r fees, [])
  | Event.error id => (on_error_message s id, [])
  | Event.hedgeCheck now => check_hedge s now
  | Event.timedCancel ts =>
    ({ s with cancel_times := (cancel_order_run ts s.cancel_times).1 },
     (cancel_order_run ts s.cancel_times).2)

/-- Run a sequence of events from a state. -/
def steps (s : State) : List Event → State
  | [] => s
  | e :: es => steps (step s e).1 es

/-- Run a sequence of events, collecting every gateway call made on the way. -/
def stepsActs (s : State) : List Event → State × List GwCall
  | [] => (s, [])
  | e :: es =>
    let r := step s e
    let rest := stepsActs r.1 es
    (rest.1, r.2 ++ rest.2)

/-- A state the core can be in: reachable from the constructor's state by some
sequence of callbacks. -/
def Reachable (s : State) : Prop := ∃ es : List Event, steps initState es = s

/-- The price carried by a gateway call is tick-aligned (cancels carry none). -/
def priceAligned : GwCall → Prop
  | GwCall.insert _ _ p _ => (100 : ℤ) ∣ p
  | GwCall.cancel _ => True
  | GwCall.hedge _ _ p _ => (100 : ℤ) ∣ p

/-- The inductive invariant of the tracker and hedge state: queue depth caps,
queue-to-set containment, the timer-iff-outside-boundary relationship, queue
id uniqueness, and freshness of the id counter. -/
structure QInv (s : State) : Prop where
  bidq_len : s.bidq.length ≤ 4
  askq_len : s.askq.length ≤ 4
  bidq_sub : ∀ id ∈ s.bidq, id ∈ s.bids
  askq_sub : ∀ id ∈ s.askq, id ∈ s.asks
  timer_iff : s.hedge_time ≠ none ↔
    (HEDGE_BOUNDARY < s.hedge_balance ∨ s.hedge_balance < -HEDGE_BOUNDARY)
  bidq_nodup : s.bidq.Nodup
  askq_nodup : s.askq.Nodup
  bids_lt : ∀ id ∈ s.bids, id < s.next_id
  asks_lt : ∀ id ∈ s.asks, id < s.next_id
  bidq_lt : ∀ id ∈ s.bidq, id < s.next_id
  askq_lt : ∀ id ∈ s.askq, id < s.next_id

/-! ### Claim C1 — hedge correction -/

/-- Claim C1: when the hedge timer is set, more than 58 time units have
elapsed since it was set, and the hedge imbalance is strictly outside
`[-10, 10]`, `check_hedge` sends exactly one hedge order sized
`|imbalance| - 10` — a buy at `MAX_ASK_NEAREST_TICK` when the imbalance is
positive, a sell at `MIN_BID_NEAREST_TICK` when it is negative — sets the
imbalance to exactly `+10` or `-10` respectively, and clears the timer; when
any of these preconditions fails, no order is sent and the state (imbalance
and timer included) is unchanged. -/
theorem C1_hedge_correction (s : State) (now : ℚ) :
    (∀ t, s.hedge_time = some t → HEDGE_TIME_LIMIT < now - t →
      (HEDGE_BOUNDARY < s.hedge_balance ∨ s.hedge_balance < -HEDGE_BOUNDARY) →
      (0 < s.hedge_balance →
        check_hedge s now =
          ({ s with hedge_balance := HEDGE_BOUNDARY, hedge_time := none,
                    next_id := s.next_id + 1 },
           [GwCall.hedge s.next_id Side.buy MAX_ASK_NEAREST_TICK
              (|s.hedge_balance| - HEDGE_BOUNDARY)])) ∧
      (s.hedge_balance < 0 →
        check_hedge s now =
          ({ s with hedge_balance := -HEDGE_BOUNDARY, hedge_time := none,
                    next_id := s.next_id + 1 },
           [GwCall.hedge s.next_id Side.sell MIN_BID_NEAREST_TICK
              (|s.hedge_balance| - HEDGE_BOUNDARY)]))) ∧
    (s.hedge_time = none → check_hedge s now = (s, [])) ∧
    (∀ t, s.hedge_time = some t →
      (now - t ≤ HEDGE_TIME_LIMIT ∨
        (-HEDGE_BOUNDARY ≤ s.hedge_balance ∧ s.hedge_balance ≤ HEDGE_BOUNDARY)) →
      check_hedge s now = (s, [])) := by
  refine ⟨?_, ?_, ?_⟩
  · intro t ht helapsed hout
    constructor
    · intro hpos
      simp only [check_hedge, ht]
      rw [if_pos ⟨helapsed, hout⟩, if_pos hpos]
    · intro hneg
      simp only [check_hedge, ht]
      rw [if_pos ⟨helapsed, hout⟩, if_neg (by omega)]
  · intro h
    simp only [check_hedge, h]
  · intro t ht h
    simp only [check_hedge, ht]
    have hneg : ¬(HEDGE_TIME_LIMIT < now - t ∧
        (HEDGE_BOUNDARY < s.hedge_balance ∨ s.hedge_balance < -HEDGE_BOUNDARY)) := by
      rintro ⟨h1, h2⟩
      rcases h with h | h
      · linarith
      · simp only [HEDGE_BOUNDARY] at h h2
        omega
    rw [if_neg hneg]

/-- Witness for C1 at a concrete armed state: balance 15, timer set at 0,
checked at 59 fires a buy of 5 at the maximum tick and pins the balance
to 10. -/
theorem C1_hedge_correction_witness :
    check_hedge { initState with hedge_balance := 15, hedge_time := some 0 } 59 =
      ({ { initState with hedge_balance := 15, hedge_time := some 0 } with
          hedge_balance := HEDGE_BOUNDARY, hedge_time := none,
          next_id := { initState with hedge_balance := 15, hedge_time := some 0 }.next_id + 1 },
       [GwCall.hedge { initState with hedge_balance := 15, hedge_time := some 0 }.next_id
          Side.buy MAX_ASK_NEAREST_TICK
          (|{ initState with hedge_balance := 15, hedge_time := some 0 }.hedge_balance| -
            HEDGE_BOUNDARY)]) :=
  ((C1_hedge_correction { initState with hedge_balance := 15, hedge_time := some 0 } 59).1
      0 rfl (by norm_num [HEDGE_TIME_LIMIT]) (by decide)).1 (by decide)

/-! ### Claim C5 — the timed cancel path never reaches the gateway -/

/-- The recursion of `cancel_order` performs no gateway call on any branch. -/
lemma cancel_order_run_acts_nil (ts deq : List ℚ) :
    (cancel_order_run ts deq).2 = ([] : List GwCall) := by
  induction ts generalizing deq with
  | nil => rfl
  | cons now rest ih =>
    simp only [cancel_order_run]
    split
    · exact ih _
    · rfl

/-- Claim C5: the automatic cancel that `dynamic_spread.py` schedules 10 time
units after each successful send never results in a cancel request reaching
the gateway primitive `send_cancel_order` — `cancel_order` re-enters its own
throttled wrapper instead of forwarding, so the set of gateway calls it
produces is empty for every throttle state and every sequence of clock
readings.  This contradicts the claim (and the documented intent), exhibiting
the defect the design notes flag. -/
theorem C5_timed_cancel_never_reaches_gateway :
    ∀ (ts deq : List ℚ) (s : State),
      (cancel_order_run ts deq).2 = ([] : List GwCall) ∧
      (step s (Event.timedCancel ts)).2 = ([] : List GwCall) := by
  intro ts deq s
  exact ⟨cancel_order_run_acts_nil ts deq, by
    simp only [step]
    exact cancel_order_run_acts_nil ts s.cancel_times⟩

/-! ### Claim C6 — fill attribution -/

/-- Claim C6: for every fill callback, an id recorded on the bid side moves
`position` up and `hedge_balance` down by exactly the fill volume; an id
recorded on the ask side (and not on the bid side) moves them the opposite
way; an id recorded nowhere leaves the whole state — position, imbalance and
hedge timer — unchanged.  The timer hypothesis is the reachable-state
invariant established by C7. -/
theorem C6_fill_attribution (s : State) (id : ℕ) (v : ℤ) (now : ℚ)
    (hinv : s.hedge_time ≠ none ↔
      (HEDGE_BOUNDARY < s.hedge_balance ∨ s.hedge_balance < -HEDGE_BOUNDARY)) :
    ((id ∈ s.bids ∨ id ∈ s.bidq) →
      (on_order_filled_message s id v now).position = s.position + v ∧
      (on_order_filled_message s id v now).hedge_balance = s.hedge_balance - v) ∧
    (id ∉ s.bids → id ∉ s.bidq → (id ∈ s.asks ∨ id ∈ s.askq) →
      (on_order_filled_message s id v now).position = s.position - v ∧
      (on_order_filled_message s id v now).hedge_balance = s.hedge_balance + v) ∧
    (id ∉ s.bids → id ∉ s.bidq → id ∉ s.asks → id ∉ s.askq →
      on_order_filled_message s id v now = s) := by
  refine ⟨?_, ?_, ?_⟩
  · intro h
    simp only [on_order_filled_message, if_pos h]
    exact ⟨trivial, trivial⟩
  · intro h1 h2 h3
    have hb : ¬(id ∈ s.bids ∨ id ∈ s.bidq) := by tauto
    simp only [on_order_filled_message, if_neg hb, if_pos h3]
    exact ⟨trivial, trivial⟩
  · intro h1 h2 h3 h4
    have hb : ¬(id ∈ s.bids ∨ id ∈ s.bidq) := by tauto
    have ha : ¬(id ∈ s.asks ∨ id ∈ s.askq) := by tauto
    simp only [on_order_filled_message, if_neg hb, if_neg ha]
    have htime : (if -HEDGE_BOUNDARY ≤ s.hedge_balance ∧ s.hedge_balance ≤ HEDGE_BOUNDARY
        then (none : Option ℚ)
        else if (0 < s.hedge_balance ∧ s.hedge_balance < 0) ∨
            (s.hedge_balance < 0 ∧ 0 < s.hedge_balance) then some now
        else if (HEDGE_BOUNDARY < s.hedge_balance ∨ s.hedge_balance < -HEDGE_BOUNDARY) ∧
            s.hedge_time = none then some now
        else s.hedge_time) = s.hedge_time := by
      by_cases hw : -HEDGE_BOUNDARY ≤ s.hedge_balance ∧ s.hedge_balance ≤ HEDGE_BOUNDARY
      · rw [if_pos hw]
        have hnout : ¬(HEDGE_BOUNDARY < s.hedge_balance ∨ s.hedge_balance < -HEDGE_BOUNDARY) := by
          simp only [HEDGE_BOUNDARY] at hw ⊢
          omega
        exact (not_not.mp (mt hinv.mp hnout)).symm
      · rw [if_neg hw, if_neg (by omega), if_neg ?_]
        rintro ⟨hout, hnone⟩
        exact hinv.mpr hout hnone
    rw [htime]

/-- Witness for C6 at a concrete state: id 5 is on the bid side only, and an
unknown id 9 changes nothing. -/
theorem C6_fill_attribution_witness :
    ((on_order_filled_message { initState with bids := {5} } 5 3 7).position =
        { initState with bids := ({5} : Finset ℕ) }.position + 3 ∧
      (on_order_filled_message { initState with bids := {5} } 5 3 7).hedge_balance =
        { initState with bids := ({5} : Finset ℕ) }.hedge_balance - 3) ∧
    on_order_filled_message { initState with bids := {5} } 9 3 7 =
      { initState with bids := ({5} : Finset ℕ) } := by
  constructor
  · exact (C6_fill_attribution { initState with bids := {5} } 5 3 7 (by decide)).1
      (Or.inl (by decide))
  · exact (C6_fill_attribution { initState with bids := {5} } 9 3 7 (by decide)).2.2
      (by decide) (by decide) (by decide) (by decide)

/-! ### Claim C3 — non-positive top-of-book -/

/-- Claim C3 (amended): in the volatility variant, a non-positive best bid or
best ask skips the quoting cycle entirely with no state change and no gateway
call; in the regression variant, the callback returns early only when BOTH
best prices are non-positive — this direction is the amended part, see the
counterexample. -/
theorem C3_nonpositive_top_skip :
    (∀ (s : State) (instrument : ℕ) (b a : ℤ) (vol pf nB nA : ℚ), b ≤ 0 ∨ a ≤ 0 →
      dyn_on_order_book_update s instrument b a vol pf nB nA = (s, [])) ∧
    (∀ (s : State) (instrument : ℕ) (b a : ℤ) (nB nA : ℚ), b ≤ 0 → a ≤ 0 →
      reg_on_order_book_update s instrument b a nB nA = (s, [])) := by
  constructor
  · intro s instrument b a vol pf nB nA h
    have hng : ¬(instrument = FUTURE ∧ 0 < b ∧ 0 < a) := by
      rintro ⟨-, hb, ha⟩
      rcases h with h | h
      · omega
      · omega
    simp only [dyn_on_order_book_update, if_neg hng]
  · intro s instrument b a nB nA hb ha
    have hcond : b ≤ 0 ∧ a ≤ 0 := ⟨hb, ha⟩
    simp only [reg_on_order_book_update, if_pos hcond]

/-- Witness for C3 (amended): with bid 0, the volatility handler leaves the
initial state unchanged, and with both prices 0 the regression handler does
too. -/
theorem C3_nonpositive_top_skip_witness :
    dyn_on_order_book_update initState FUTURE 0 100 0 1 0 0 = (initState, []) ∧
    reg_on_order_book_update initState FUTURE 0 0 0 0 = (initState, []) :=
  ⟨C3_nonpositive_top_skip.1 initState FUTURE 0 100 0 1 0 0 (Or.inl (by norm_num)),
   C3_nonpositive_top_skip.2 initState FUTURE 0 0 0 0 (by norm_num) (by norm_num)⟩

/-- Counterexample for C3 as stated: in the regression variant, an ETF update
with best bid 0 (non-positive) and best ask 100 is NOT skipped — the handler
appends the mid-price 50 to the ETF window, a state change. -/
theorem C3_counterexample :
    (reg_on_order_book_update initState ETF 0 100 0 0).1.etf_prices = [50] ∧
    (reg_on_order_book_update initState ETF 0 100 0 0).1 ≠ initState := by
  constructor
  · decide
  · decide

/-! ### The inductive invariant -/

/-- The timer-update chain of `on_order_filled_message` re-establishes the
timer-iff-outside-boundary relationship for the post-fill balance. -/
lemma timer_chain_iff (t0 : Option ℚ) (pre b : ℤ) (now : ℚ)
    (hinv : t0 ≠ none ↔ (HEDGE_BOUNDARY < pre ∨ pre < -HEDGE_BOUNDARY)) :
    (if -HEDGE_BOUNDARY ≤ b ∧ b ≤ HEDGE_BOUNDARY then (none : Option ℚ)
     else if (0 < pre ∧ b < 0) ∨ (pre < 0 ∧ 0 < b) then some now
     else if (HEDGE_BOUNDARY < b ∨ b < -HEDGE_BOUNDARY) ∧ t0 = none then some now
     else t0) ≠ none ↔ (HEDGE_BOUNDARY < b ∨ b < -HEDGE_BOUNDARY) := by
  by_cases h1 : -HEDGE_BOUNDARY ≤ b ∧ b ≤ HEDGE_BOUNDARY
  · rw [if_pos h1]
    constructor
    · intro hc
      exact absurd rfl hc
    · intro hout
      exfalso
      simp only [HEDGE_BOUNDARY] at h1 hout
      omega
  · rw [if_neg h1]
    have hout : HEDGE_BOUNDARY < b ∨ b < -HEDGE_BOUNDARY := by
      simp only [HEDGE_BOUNDARY] at h1 ⊢
      omega
    by_cases h2 : (0 < pre ∧ b < 0) ∨ (pre < 0 ∧ 0 < b)
    · rw [if_pos h2]
      exact ⟨fun _ => hout, fun _ => Option.some_ne_none now⟩
    · rw [if_neg h2]
      by_cases h3 : (HEDGE_BOUNDARY < b ∨ b < -HEDGE_BOUNDARY) ∧ t0 = none
      · rw [if_pos h3]
        exact ⟨fun _ => hout, fun _ => Option.some_ne_none now⟩
      · rw [if_neg h3]
        exact ⟨fun _ => hout, fun _ ht0 => h3 ⟨hout, ht0⟩⟩

/-- A fill preserves the invariant. -/
lemma fill_inv (s : State) (id : ℕ) (v : ℤ) (now : ℚ) (h : QInv s) :
    QInv (on_order_filled_message s id v now) := by
  refine ⟨h.bidq_len, h.askq_len, h.bidq_sub, h.askq_sub, ?_, h.bidq_nodup, h.askq_nodup,
    h.bids_lt, h.asks_lt, h.bidq_lt, h.askq_lt⟩
  simp only [on_order_filled_message]
  by_cases hb : id ∈ s.bids ∨ id ∈ s.bidq
  · simp only [if_pos hb]
    exact timer_chain_iff s.hedge_time s.hedge_balance (s.hedge_balance - v) now h.timer_iff
  · simp only [if_neg hb]
    by_cases ha : id ∈ s.asks ∨ id ∈ s.askq
    · simp only [if_pos ha]
      exact timer_chain_iff s.hedge_time s.hedge_balance (s.hedge_balance + v) now h.timer_iff
    · simp only [if_neg ha]
      exact timer_chain_iff s.hedge_time s.hedge_balance s.hedge_balance now h.timer_iff

/-- Bumping the id counter preserves the invariant. -/
lemma bump_inv (s : State) (h : QInv s) : QInv { s with next_id := s.next_id + 1 } :=
  ⟨h.bidq_len, h.askq_len, h.bidq_sub, h.askq_sub, h.timer_iff, h.bidq_nodup, h.askq_nodup,
   fun j hj => Nat.lt_succ_of_lt (h.bids_lt j hj),
   fun j hj => Nat.lt_succ_of_lt (h.asks_lt j hj),
   fun j hj => Nat.lt_succ_of_lt (h.bidq_lt j hj),
   fun j hj => Nat.lt_succ_of_lt (h.askq_lt j hj)⟩

/-- A throttled send with a fresh id preserves the invariant. -/
lemma send_throttled_inv (s : State) (now : ℚ) (id : ℕ) (side : Side) (p v : ℤ)
    (h : QInv s) (hid : id < s.next_id)
    (hbq : ∀ j ∈ s.bidq, j < id) (haq : ∀ j ∈ s.askq, j < id) :
    QInv (send_throttled s now id side p v).1 := by
  cases side
  case buy =>
    by_cases hal : throttler_allow s.send_times now
    · by_cases hlen : 4 ≤ s.bidq.length
      · simp only [send_throttled, if_pos hal, if_pos hlen]
        exact ⟨h.bidq_len, h.askq_len, h.bidq_sub, h.askq_sub, h.timer_iff, h.bidq_nodup,
          h.askq_nodup, h.bids_lt, h.asks_lt, h.bidq_lt, h.askq_lt⟩
      · simp only [send_throttled, if_pos hal, if_neg hlen]
        refine ⟨?_, h.askq_len, ?_, h.askq_sub, h.timer_iff, ?_, h.askq_nodup, ?_,
          h.asks_lt, ?_, h.askq_lt⟩
        · simp only [List.length_append, List.length_singleton]
          omega
        · intro j hj
          rcases List.mem_append.mp hj with hj | hj
          · exact Finset.mem_insert_of_mem (h.bidq_sub j hj)
          · rw [List.mem_singleton] at hj
            subst hj
            exact Finset.mem_insert_self _ _
        · refine List.nodup_append.mpr ⟨h.bidq_nodup, List.nodup_singleton id, ?_⟩
          intro j hj hj2
          rw [List.mem_singleton] at hj2
          subst hj2
          exact absurd (hbq _ hj) (lt_irrefl _)
        · intro j hj
          rcases Finset.mem_insert.mp hj with rfl | hj
          · exact hid
          · exact h.bids_lt j hj
        · intro j hj
          rcases List.mem_append.mp hj with hj | hj
          · exact h.bidq_lt j hj
          · rw [List.mem_singleton] at hj
            subst hj
            exact hid
    · simp only [send_throttled, if_neg hal]
      exact h
  case sell =>
    by_cases hal : throttler_allow s.send_times now
    · by_cases hlen : 4 ≤ s.askq.length
      · simp only [send_throttled, if_pos hal, if_pos hlen]
        exact ⟨h.bidq_len, h.askq_len, h.bidq_sub, h.askq_sub, h.timer_iff, h.bidq_nodup,
          h.askq_nodup, h.bids_lt, h.asks_lt, h.bidq_lt, h.askq_lt⟩
      · simp only [send_throttled, if_pos hal, if_neg hlen]
        refine ⟨h.bidq_len, ?_, h.bidq_sub, ?_, h.timer_iff, h.bidq_nodup, ?_,
          h.bids_lt, ?_, h.bidq_lt, ?_⟩
        · simp only [List.length_append, List.length_singleton]
          omega
        · intro j hj
          rcases List.mem_append.mp hj with hj | hj
          · exact Finset.mem_insert_of_mem (h.askq_sub j hj)
          · rw [List.mem_singleton] at hj
            subst hj
            exact Finset.mem_insert_self _ _
        · refine List.nodup_append.mpr ⟨h.askq_nodup, List.nodup_singleton id, ?_⟩
          intro j hj hj2
          rw [List.mem_singleton] at hj2
          subst hj2
          exact absurd (haq _ hj) (lt_irrefl _)
        · intro j hj
          rcases Finset.mem_insert.mp hj with rfl | hj
          · exact hid
          · exact h.asks_lt j hj
        · intro j hj
          rcases List.mem_append.mp hj with hj | hj
          · exact h.askq_lt j hj
          · rw [List.mem_singleton] at hj
            subst hj
            exact hid
    · simp only [send_throttled, if_neg hal]
      exact h

/-- Evicting the oldest bid preserves the invariant. -/
lemma evictBid_inv (s : State) (h : QInv s) : QInv (evictBid s).1 := by
  unfold evictBid
  split
  · refine ⟨?_, h.askq_len, ?_, h.askq_sub, h.timer_iff, ?_, h.askq_nodup,
      h.bids_lt, h.asks_lt, ?_, h.askq_lt⟩
    · have := h.bidq_len
      simp only [List.length_tail]
      omega
    · intro j hj
      exact h.bidq_sub j (List.mem_of_mem_tail hj)
    · exact List.Nodup.sublist (List.tail_sublist _) h.bidq_nodup
    · intro j hj
      exact h.bidq_lt j (List.mem_of_mem_tail hj)
  · exact h

/-- Evicting the oldest ask preserves the invariant. -/
lemma evictAsk_inv (s : State) (h : QInv s) : QInv (evictAsk s).1 := by
  unfold evictAsk
  split
  · refine ⟨h.bidq_len, ?_, h.bidq_sub, ?_, h.timer_iff, h.bidq_nodup, ?_,
      h.bids_lt, h.asks_lt, h.bidq_lt, ?_⟩
    · have := h.askq_len
      simp only [List.length_tail]
      omega
    · intro j hj
      exact h.askq_sub j (List.mem_of_mem_tail hj)
    · exact List.Nodup.sublist (List.tail_sublist _) h.askq_nodup
    · intro j hj
      exact h.askq_lt j (List.mem_of_mem_tail hj)
  · exact h

/-- A guarded submission preserves the invariant. -/
lemma submitSide_inv (s : State) (cond : Prop) [Decidable cond] (now : ℚ) (side : Side)
    (p v : ℤ) (h : QInv s) : QInv (submitSide s cond now side p v).1 := by
  unfold submitSide
  split
  · exact send_throttled_inv _ now s.next_id side p v (bump_inv s h)
      (Nat.lt_succ_self _) h.bidq_lt h.askq_lt
  · exact h

/-- The shared quoting tail preserves the invariant. -/
lemma quoteCycle_inv (s : State) (nb na : ℤ) (nB nA : ℚ) (h : QInv s) :
    QInv (quoteCycle s nb na nB nA).1 := by
  simp only [quoteCycle]
  exact submitSide_inv _ _ _ _ _ _ (submitSide_inv _ _ _ _ _ _
    (evictAsk_inv _ (evictBid_inv _ h)))

/-- A status callback preserves the invariant. -/
lemma status_inv (s : State) (id : ℕ) (fv r fees : ℤ) (h : QInv s) :
    QInv (on_order_status_message s id fv r fees) := by
  unfold on_order_status_message
  split
  · split
    · refine ⟨?_, h.askq_len, ?_, h.askq_sub, h.timer_iff, ?_, h.askq_nodup, ?_,
        h.asks_lt, ?_, h.askq_lt⟩
      · exact le_trans (List.Sublist.length_le (List.erase_sublist _ _)) h.bidq_len
      · intro j hj
        have hj' := (h.bidq_nodup.mem_erase_iff).mp hj
        exact Finset.mem_erase.mpr ⟨hj'.1, h.bidq_sub j hj'.2⟩
      · exact List.Nodup.sublist (List.erase_sublist _ _) h.bidq_nodup
      · intro j hj
        exact h.bids_lt j (Finset.mem_of_mem_erase hj)
      · intro j hj
        exact h.bidq_lt j (List.mem_of_mem_erase hj)
    · split
      · refine ⟨h.bidq_len, ?_, h.bidq_sub, ?_, h.timer_iff, h.bidq_nodup, ?_,
          h.bids_lt, ?_, h.bidq_lt, ?_⟩
        · exact le_trans (List.Sublist.length_le (List.erase_sublist _ _)) h.askq_len
        · intro j hj
          have hj' := (h.askq_nodup.mem_erase_iff).mp hj
          exact Finset.mem_erase.mpr ⟨hj'.1, h.askq_sub j hj'.2⟩
        · exact List.Nodup.sublist (List.erase_sublist _ _) h.askq_nodup
        · intro j hj
          exact h.asks_lt j (Finset.mem_of_mem_erase hj)
        · intro j hj
          exact h.askq_lt j (List.mem_of_mem_erase hj)
      · exact h
  · exact h

/-- An error callback preserves the invariant. -/
lemma error_inv (s : State) (id : ℕ) (h : QInv s) : QInv (on_error_message s id) := by
  unfold on_error_message
  split
  · exact status_inv s id 0 0 0 h
  · exact h

/-- The hedge check preserves the invariant. -/
lemma check_hedge_inv (s : State) (now : ℚ) (h : QInv s) : QInv (check_hedge s now).1 := by
  cases hs : s.hedge_time with
  | none =>
    simp only [check_hedge, hs]
    exact h
  | some t =>
    simp only [check_hedge, hs]
    split
    · split
      · refine ⟨h.bidq_len, h.askq_len, h.bidq_sub, h.askq_sub, ?_, h.bidq_nodup,
          h.askq_nodup,
          fun j hj => Nat.lt_succ_of_lt (h.bids_lt j hj),
          fun j hj => Nat.lt_succ_of_lt (h.asks_lt j hj),
          fun j hj => Nat.lt_succ_of_lt (h.bidq_lt j hj),
          fun j hj => Nat.lt_succ_of_lt (h.askq_lt j hj)⟩
        simp [HEDGE_BOUNDARY]
      · refine ⟨h.bidq_len, h.askq_len, h.bidq_sub, h.askq_sub, ?_, h.bidq_nodup,
          h.askq_nodup,
          fun j hj => Nat.lt_succ_of_lt (h.bids_lt j hj),
          fun j hj => Nat.lt_succ_of_lt (h.asks_lt j hj),
          fun j hj => Nat.lt_succ_of_lt (h.bidq_lt j hj),
          fun j hj => Nat.lt_succ_of_lt (h.askq_lt j hj)⟩
        simp [HEDGE_BOUNDARY]
    · exact h

/-- The invariant only reads the tracker and hedge fields, so any state that
agrees on them inherits it. -/
lemma QInv_congr (s s' : State)
    (h1 : s'.bids = s.bids) (h2 : s'.asks = s.asks) (h3 : s'.bidq = s.bidq)
    (h4 : s'.askq = s.askq) (h5 : s'.hedge_time = s.hedge_time)
    (h6 : s'.hedge_balance = s.hedge_balance) (h7 : s'.next_id = s.next_id)
    (h : QInv s) : QInv s' := by
  refine ⟨?_, ?_, ?_, ?_, ?_, ?_, ?_, ?_, ?_, ?_, ?_⟩
  · rw [h3]
    exact h.bidq_len
  · rw [h4]
    exact h.askq_len
  · rw [h3, h1]
    exact h.bidq_sub
  · rw [h4, h2]
    exact h.askq_sub
  · rw [h5, h6]
    exact h.timer_iff
  · rw [h3]
    exact h.bidq_nodup
  · rw [h4]
    exact h.askq_nodup
  · rw [h1, h7]
    exact h.bids_lt
  · rw [h2, h7]
    exact h.asks_lt
  · rw [h3, h7]
    exact h.bidq_lt
  · rw [h4, h7]
    exact h.askq_lt

/-- The volatility-variant order-book handler preserves the invariant. -/
lemma dyn_inv (s : State) (instrument : ℕ) (b a : ℤ) (vol pf nB nA : ℚ) (h : QInv s) :
    QInv (dyn_on_order_book_update s instrument b a vol pf nB nA).1 := by
  simp only [dyn_on_order_book_update]
  split
  · exact quoteCycle_inv _ _ _ _ _ (QInv_congr s _ rfl rfl rfl rfl rfl rfl rfl h)
  · exact h

/-- The window append of the regression handler preserves the invariant. -/
lemma regWindowUpdate_inv (s : State) (instrument : ℕ) (mid : ℤ) (h : QInv s) :
    QInv (regWindowUpdate s instrument mid) := by
  unfold regWindowUpdate
  split
  · exact QInv_congr s _ rfl rfl rfl rfl rfl rfl rfl h
  · split
    · exact QInv_congr s _ rfl rfl rfl rfl rfl rfl rfl h
    · exact h

/-- The regression-variant order-book handler preserves the invariant. -/
lemma reg_inv (s : State) (instrument : ℕ) (b a : ℤ) (nB nA : ℚ) (h : QInv s) :
    QInv (reg_on_order_book_update s instrument b a nB nA).1 := by
  have hW := regWindowUpdate_inv s instrument ((b + a).fdiv 2) h
  simp only [reg_on_order_book_update]
  split
  · exact h
  · cases hm : calculate_hedge_slope (regWindowUpdate s instrument ((b + a).fdiv 2)).etf_prices
      (regWindowUpdate s instrument ((b + a).fdiv 2)).fut_prices with
    | none =>
      simp only [hm]
      exact hW
    | some r =>
      simp only [hm]
      split
      · exact quoteCycle_inv _ _ _ _ _ hW
      · exact hW

/-- Every event preserves the invariant. -/
lemma step_inv (s : State) (e : Event) (h : QInv s) : QInv (step s e).1 := by
  cases e with
  | obookDyn instrument b a vol pf nB nA => exact dyn_inv s instrument b a vol pf nB nA h
  | obookReg instrument b a nB nA => exact reg_inv s instrument b a nB nA h
  | fill id v now => exact fill_inv s id v now h
  | status id fv r fees => exact status_inv s id fv r fees h
  | error id => exact error_inv s id h
  | hedgeCheck now => exact check_hedge_inv s now h
  | timedCancel ts => exact QInv_congr s _ rfl rfl rfl rfl rfl rfl rfl h

/-- The invariant holds initially. -/
lemma init_inv : QInv initState := by
  refine ⟨?_, ?_, ?_, ?_, ?_, ?_, ?_, ?_, ?_, ?_, ?_⟩ <;> simp [initState, HEDGE_BOUNDARY]

/-- The invariant holds along every run. -/
lemma steps_inv (s : State) (es : List Event) (h : QInv s) : QInv (steps s es) := by
  induction es generalizing s with
  | nil => exact h
  | cons e es ih => exact ih _ (step_inv s e h)

/-- The invariant holds in every reachable state. -/
lemma reachable_inv (s : State) (h : Reachable s) : QInv s := by
  obtain ⟨es, rfl⟩ := h
  exact steps_inv initState es init_inv

/-! ### Claim C7 — hedge-timer state machine invariant -/

/-- The fill timer chain: the three case facts of the hedge state machine. -/
lemma timer_chain_cases (t0 : Option ℚ) (pre b : ℤ) (now : ℚ) :
    ((-HEDGE_BOUNDARY ≤ b ∧ b ≤ HEDGE_BOUNDARY) →
      (if -HEDGE_BOUNDARY ≤ b ∧ b ≤ HEDGE_BOUNDARY then (none : Option ℚ)
       else if (0 < pre ∧ b < 0) ∨ (pre < 0 ∧ 0 < b) then some now
       else if (HEDGE_BOUNDARY < b ∨ b < -HEDGE_BOUNDARY) ∧ t0 = none then some now
       else t0) = none) ∧
    ((HEDGE_BOUNDARY < b ∨ b < -HEDGE_BOUNDARY) →
      (t0 = none ∨ (0 < pre ∧ b < 0) ∨ (pre < 0 ∧ 0 < b)) →
      (if -HEDGE_BOUNDARY ≤ b ∧ b ≤ HEDGE_BOUNDARY then (none : Option ℚ)
       else if (0 < pre ∧ b < 0) ∨ (pre < 0 ∧ 0 < b) then some now
       else if (HEDGE_BOUNDARY < b ∨ b < -HEDGE_BOUNDARY) ∧ t0 = none then some now
       else t0) = some now) ∧
    ((HEDGE_BOUNDARY < b ∨ b < -HEDGE_BOUNDARY) →
      ¬((0 < pre ∧ b < 0) ∨ (pre < 0 ∧ 0 < b)) → t0 ≠ none →
      (if -HEDGE_BOUNDARY ≤ b ∧ b ≤ HEDGE_BOUNDARY then (none : Option ℚ)
       else if (0 < pre ∧ b < 0) ∨ (pre < 0 ∧ 0 < b) then some now
       else if (HEDGE_BOUNDARY < b ∨ b < -HEDGE_BOUNDARY) ∧ t0 = none then some now
       else t0) = t0) := by
  refine ⟨?_, ?_, ?_⟩
  · intro hw
    rw [if_pos hw]
  · intro hout hset
    have hnw : ¬(-HEDGE_BOUNDARY ≤ b ∧ b ≤ HEDGE_BOUNDARY) := by
      simp only [HEDGE_BOUNDARY] at hout ⊢
      omega
    rw [if_neg hnw]
    rcases hset with ht0 | hflip
    · by_cases hflip : (0 < pre ∧ b < 0) ∨ (pre < 0 ∧ 0 < b)
      · rw [if_pos hflip]
      · rw [if_neg hflip, if_pos ⟨hout, ht0⟩]
    · rw [if_pos hflip]
  · intro hout hnflip ht0
    have hnw : ¬(-HEDGE_BOUNDARY ≤ b ∧ b ≤ HEDGE_BOUNDARY) := by
      simp only [HEDGE_BOUNDARY] at hout ⊢
      omega
    rw [if_neg hnw, if_neg hnflip, if_neg ?_]
    rintro ⟨-, hn⟩
    exact ht0 hn

/-- Claim C7: in every reachable state the hedge timer is set if and only if
the imbalance is strictly outside `[-10, 10]`; moreover, for a fill from such
a state: a fill landing inside the boundary clears the timer; a fill landing
outside with no timer running, or flipping the imbalance's sign, (re)sets the
timer to the fill time; and a fill keeping an armed timer's sign and
excursion leaves the timer value untouched. -/
theorem C7_timer_iff_outside (s : State) (h : Reachable s) :
    (s.hedge_time ≠ none ↔
      (HEDGE_BOUNDARY < s.hedge_balance ∨ s.hedge_balance < -HEDGE_BOUNDARY)) ∧
    (∀ id v now,
      ((-HEDGE_BOUNDARY ≤ (on_order_filled_message s id v now).hedge_balance ∧
          (on_order_filled_message s id v now).hedge_balance ≤ HEDGE_BOUNDARY) →
        (on_order_filled_message s id v now).hedge_time = none) ∧
      ((HEDGE_BOUNDARY < (on_order_filled_message s id v now).hedge_balance ∨
          (on_order_filled_message s id v now).hedge_balance < -HEDGE_BOUNDARY) →
        (s.hedge_time = none ∨
          (0 < s.hedge_balance ∧ (on_order_filled_message s id v now).hedge_balance < 0) ∨
          (s.hedge_balance < 0 ∧ 0 < (on_order_filled_message s id v now).hedge_balance)) →
        (on_order_filled_message s id v now).hedge_time = some now) ∧
      ((HEDGE_BOUNDARY < (on_order_filled_message s id v now).hedge_balance ∨
          (on_order_filled_message s id v now).hedge_balance < -HEDGE_BOUNDARY) →
        ¬((0 < s.hedge_balance ∧ (on_order_filled_message s id v now).hedge_balance < 0) ∨
          (s.hedge_balance < 0 ∧ 0 < (on_order_filled_message s id v now).hedge_balance)) →
        s.hedge_time ≠ none →
        (on_order_filled_message s id v now).hedge_time = s.hedge_time)) := by
  refine ⟨(reachable_inv s h).timer_iff, ?_⟩
  intro id v now
  simp only [on_order_filled_message]
  by_cases hb : id ∈ s.bids ∨ id ∈ s.bidq
  · simp only [if_pos hb]
    exact timer_chain_cases s.hedge_time s.hedge_balance (s.hedge_balance - v) now
  · simp only [if_neg hb]
    by_cases ha : id ∈ s.asks ∨ id ∈ s.askq
    · simp only [if_pos ha]
      exact timer_chain_cases s.hedge_time s.hedge_balance (s.hedge_balance + v) now
    · simp only [if_neg ha]
      exact timer_chain_cases s.hedge_time s.hedge_balance s.hedge_balance now

section RatKernelEval

attribute [local semireducible] Rat.add Rat.sub Rat.mul Rat.inv

/-- Witness for C7 at the initial state (reachable by the empty run): the
timer is unset and the imbalance 0 is inside the boundary, and a fill from a
reachable state with id 1 on the bid side lands at -11, outside, setting the
timer. -/
theorem C7_timer_iff_outside_witness :
    (initState.hedge_time ≠ none ↔
      (HEDGE_BOUNDARY < initState.hedge_balance ∨ initState.hedge_balance < -HEDGE_BOUNDARY)) ∧
    (on_order_filled_message (steps initState [Event.obookDyn 0 10000 10000 0 1 0 0]) 1 11 3).hedge_time
      = some 3 := by
  constructor
  · exact (C7_timer_iff_outside initState ⟨[], rfl⟩).1
  · exact ((C7_timer_iff_outside (steps initState [Event.obookDyn 0 10000 10000 0 1 0 0])
      ⟨[Event.obookDyn 0 10000 10000 0 1 0 0], rfl⟩).2 1 11 3).2.1 (by decide) (Or.inl (by decide))

end RatKernelEval

/-! ### Structural lemmas about the quoting tail -/

/-- Eviction only ever emits gateway cancels. -/
lemma evictBid_acts (s : State) : ∀ c ∈ (evictBid s).2, ∃ i, c = GwCall.cancel i := by
  intro c hc
  unfold evictBid at hc
  split at hc
  · rw [List.mem_singleton] at hc
    exact ⟨_, hc⟩
  · exact absurd hc (List.not_mem_nil c)

/-- Eviction only ever emits gateway cancels (ask side). -/
lemma evictAsk_acts (s : State) : ∀ c ∈ (evictAsk s).2, ∃ i, c = GwCall.cancel i := by
  intro c hc
  unfold evictAsk at hc
  split at hc
  · rw [List.mem_singleton] at hc
    exact ⟨_, hc⟩
  · exact absurd hc (List.not_mem_nil c)

/-- At bid capacity, eviction pops the oldest id and cancels exactly it. -/
lemma evictBid_full (s : State) (h : 4 ≤ s.bidq.length) :
    (evictBid s).1.bidq = s.bidq.tail ∧ (evictBid s).2 = [GwCall.cancel s.bidq.headI] := by
  unfold evictBid
  rw [if_pos h]
  exact ⟨rfl, rfl⟩

/-- At ask capacity, eviction pops the oldest id and cancels exactly it. -/
lemma evictAsk_full (s : State) (h : 4 ≤ s.askq.length) :
    (evictAsk s).1.askq = s.askq.tail ∧ (evictAsk s).2 = [GwCall.cancel s.askq.headI] := by
  unfold evictAsk
  rw [if_pos h]
  exact ⟨rfl, rfl⟩

/-- Bid eviction touches only the bid queue. -/
lemma evictBid_other (s : State) :
    (evictBid s).1.bids = s.bids ∧ (evictBid s).1.asks = s.asks ∧
    (evictBid s).1.askq = s.askq ∧ (evictBid s).1.next_id = s.next_id ∧
    (evictBid s).1.position = s.position ∧
    (evictBid s).1.hedge_balance = s.hedge_balance ∧
    (evictBid s).1.hedge_time = s.hedge_time := by
  unfold evictBid
  split
  · exact ⟨rfl, rfl, rfl, rfl, rfl, rfl, rfl⟩
  · exact ⟨rfl, rfl, rfl, rfl, rfl, rfl, rfl⟩

/-- Ask eviction touches only the ask queue. -/
lemma evictAsk_other (s : State) :
    (evictAsk s).1.bids = s.bids ∧ (evictAsk s).1.asks = s.asks ∧
    (evictAsk s).1.bidq = s.bidq ∧ (evictAsk s).1.next_id = s.next_id ∧
    (evictAsk s).1.position = s.position ∧
    (evictAsk s).1.hedge_balance = s.hedge_balance ∧
    (evictAsk s).1.hedge_time = s.hedge_time := by
  unfold evictAsk
  split
  · exact ⟨rfl, rfl, rfl, rfl, rfl, rfl, rfl⟩
  · exact ⟨rfl, rfl, rfl, rfl, rfl, rfl, rfl⟩

/-- A throttled send emits at most the one insert it was asked to send. -/
lemma send_throttled_acts (s : State) (now : ℚ) (id : ℕ) (side : Side) (p v : ℤ) :
    ∀ c ∈ (send_throttled s now id side p v).2, c = GwCall.insert id side p v := by
  intro c hc
  cases side
  case buy =>
    by_cases hal : throttler_allow s.send_times now
    · by_cases hlen : 4 ≤ s.bidq.length
      · simp only [send_throttled, if_pos hal, if_pos hlen] at hc
        exact absurd hc (List.not_mem_nil c)
      · simp only [send_throttled, if_pos hal, if_neg hlen] at hc
        rw [List.mem_singleton] at hc
        exact hc
    · simp only [send_throttled, if_neg hal] at hc
      exact absurd hc (List.not_mem_nil c)
  case sell =>
    by_cases hal : throttler_allow s.send_times now
    · by_cases hlen : 4 ≤ s.askq.length
      · simp only [send_throttled, if_pos hal, if_pos hlen] at hc
        exact absurd hc (List.not_mem_nil c)
      · simp only [send_throttled, if_pos hal, if_neg hlen] at hc
        rw [List.mem_singleton] at hc
        exact hc
    · simp only [send_throttled, if_neg hal] at hc
      exact absurd hc (List.not_mem_nil c)

/-- A buy send leaves the bid queue alone or appends exactly its id; the ask
queue, the ask set and the id counter are untouched, and the bid set only
grows. -/
lemma send_throttled_buy_fields (s : State) (now : ℚ) (id : ℕ) (p v : ℤ) :
    ((send_throttled s now id Side.buy p v).1.bidq = s.bidq ∨
      (send_throttled s now id Side.buy p v).1.bidq = s.bidq ++ [id]) ∧
    (send_throttled s now id Side.buy p v).1.askq = s.askq ∧
    (send_throttled s now id Side.buy p v).1.next_id = s.next_id ∧
    s.bids ⊆ (send_throttled s now id Side.buy p v).1.bids ∧
    s.asks ⊆ (send_throttled s now id Side.buy p v).1.asks := by
  by_cases hal : throttler_allow s.send_times now
  · by_cases hlen : 4 ≤ s.bidq.length
    · simp only [send_throttled, if_pos hal, if_pos hlen]
      refine ⟨Or.inl ?_, ?_, ?_, ?_, ?_⟩ <;>
        first
          | trivial
          | exact Finset.Subset.refl _
          | exact Finset.subset_insert _ _
    · simp only [send_throttled, if_pos hal, if_neg hlen]
      refine ⟨Or.inr ?_, ?_, ?_, ?_, ?_⟩ <;>
        first
          | trivial
          | exact Finset.Subset.refl _
          | exact Finset.subset_insert _ _
  · simp only [send_throttled, if_neg hal]
    refine ⟨Or.inl ?_, ?_, ?_, ?_, ?_⟩ <;>
      first
        | trivial
        | exact Finset.Subset.refl _
        | exact Finset.subset_insert _ _

/-- The sell-side analogue of `send_throttled_buy_fields`. -/
lemma send_throttled_sell_fields (s : State) (now : ℚ) (id : ℕ) (p v : ℤ) :
    ((send_throttled s now id Side.sell p v).1.askq = s.askq ∨
      (send_throttled s now id Side.sell p v).1.askq = s.askq ++ [id]) ∧
    (send_throttled s now id Side.sell p v).1.bidq = s.bidq ∧
    (send_throttled s now id Side.sell p v).1.next_id = s.next_id ∧
    s.bids ⊆ (send_throttled s now id Side.sell p v).1.bids ∧
    s.asks ⊆ (send_throttled s now id Side.sell p v).1.asks := by
  by_cases hal : throttler_allow s.send_times now
  · by_cases hlen : 4 ≤ s.askq.length
    · simp only [send_throttled, if_pos hal, if_pos hlen]
      refine ⟨Or.inl ?_, ?_, ?_, ?_, ?_⟩ <;>
        first
          | trivial
          | exact Finset.Subset.refl _
          | exact Finset.subset_insert _ _
    · simp only [send_throttled, if_pos hal, if_neg hlen]
      refine ⟨Or.inr ?_, ?_, ?_, ?_, ?_⟩ <;>
        first
          | trivial
          | exact Finset.Subset.refl _
          | exact Finset.subset_insert _ _
  · simp only [send_throttled, if_neg hal]
    refine ⟨Or.inl ?_, ?_, ?_, ?_, ?_⟩ <;>
      first
        | trivial
        | exact Finset.Subset.refl _
        | exact Finset.subset_insert _ _

/-- A buy send at bid capacity records nothing in the queue (and adds nothing
to the bid set). -/
lemma send_throttled_buy_full (s : State) (now : ℚ) (id : ℕ) (p v : ℤ)
    (h : 4 ≤ s.bidq.length) :
    (send_throttled s now id Side.buy p v).1.bidq = s.bidq ∧
    (send_throttled s now id Side.buy p v).1.bids = s.bids ∧
    (send_throttled s now id Side.buy p v).2 = [] := by
  by_cases hal : throttler_allow s.send_times now
  · simp only [send_throttled, if_pos hal, if_pos h]
    refine ⟨?_, ?_, ?_⟩ <;> trivial
  · simp only [send_throttled, if_neg hal]
    refine ⟨?_, ?_, ?_⟩ <;> trivial

/-- A sell send at ask capacity records nothing in the queue. -/
lemma send_throttled_sell_full (s : State) (now : ℚ) (id : ℕ) (p v : ℤ)
    (h : 4 ≤ s.askq.length) :
    (send_throttled s now id Side.sell p v).1.askq = s.askq ∧
    (send_throttled s now id Side.sell p v).1.asks = s.asks ∧
    (send_throttled s now id Side.sell p v).2 = [] := by
  by_cases hal : throttler_allow s.send_times now
  · simp only [send_throttled, if_pos hal, if_pos h]
    refine ⟨?_, ?_, ?_⟩ <;> trivial
  · simp only [send_throttled, if_neg hal]
    refine ⟨?_, ?_, ?_⟩ <;> trivial

/-- Guarded-submission analogue of the send field lemmas (buy side). -/
lemma submitSide_buy_fields (s : State) (cond : Prop) [Decidable cond] (now : ℚ) (p v : ℤ) :
    ((submitSide s cond now Side.buy p v).1.bidq = s.bidq ∨
      (submitSide s cond now Side.buy p v).1.bidq = s.bidq ++ [s.next_id]) ∧
    (submitSide s cond now Side.buy p v).1.askq = s.askq ∧
    s.next_id ≤ (submitSide s cond now Side.buy p v).1.next_id ∧
    s.bids ⊆ (submitSide s cond now Side.buy p v).1.bids ∧
    s.asks ⊆ (submitSide s cond now Side.buy p v).1.asks := by
  unfold submitSide
  split
  · have h := send_throttled_buy_fields { s with next_id := s.next_id + 1 } now s.next_id p v
    exact ⟨h.1, h.2.1, by rw [h.2.2.1]; exact Nat.le_succ _, h.2.2.2.1, h.2.2.2.2⟩
  · exact ⟨Or.inl rfl, rfl, le_refl _, Finset.Subset.refl _, Finset.Subset.refl _⟩

/-- Guarded-submission analogue of the send field lemmas (sell side). -/
lemma submitSide_sell_fields (s : State) (cond : Prop) [Decidable cond] (now : ℚ) (p v : ℤ) :
    ((submitSide s cond now Side.sell p v).1.askq = s.askq ∨
      (submitSide s cond now Side.sell p v).1.askq = s.askq ++ [s.next_id]) ∧
    (submitSide s cond now Side.sell p v).1.bidq = s.bidq ∧
    s.next_id ≤ (submitSide s cond now Side.sell p v).1.next_id ∧
    s.bids ⊆ (submitSide s cond now Side.sell p v).1.bids ∧
    s.asks ⊆ (submitSide s cond now Side.sell p v).1.asks := by
  unfold submitSide
  split
  · have h := send_throttled_sell_fields { s with next_id := s.next_id + 1 } now s.next_id p v
    exact ⟨h.1, h.2.1, by rw [h.2.2.1]; exact Nat.le_succ _, h.2.2.2.1, h.2.2.2.2⟩
  · exact ⟨Or.inl rfl, rfl, le_refl _, Finset.Subset.refl _, Finset.Subset.refl _⟩

/-- A guarded submission emits at most one insert, for the state's next id. -/
lemma submitSide_acts (s : State) (cond : Prop) [Decidable cond] (now : ℚ) (side : Side)
    (p v : ℤ) :
    ∀ c ∈ (submitSide s cond now side p v).2, c = GwCall.insert s.next_id side p v := by
  intro c hc
  unfold submitSide at hc
  split at hc
  · exact send_throttled_acts _ now s.next_id side p v c hc
  · exact absurd hc (List.not_mem_nil c)

/-- Structure of one quoting tail: its gateway calls split into a block of
cancels followed by a block of inserts; at capacity the oldest queued id of a
side is cancelled in the cancel block and popped from the queue, any id the
cycle appends afterwards is fresh, and the id sets only grow. -/
lemma quoteCycle_struct (s : State) (nb na : ℤ) (nB nA : ℚ) :
    ∃ pre post,
      (quoteCycle s nb na nB nA).2 = pre ++ post ∧
      (∀ c ∈ pre, ∃ i, c = GwCall.cancel i) ∧
      (∀ c ∈ post, ∃ i sd pr vl, c = GwCall.insert i sd pr vl) ∧
      (4 ≤ s.bidq.length → GwCall.cancel s.bidq.headI ∈ pre) ∧
      (4 ≤ s.askq.length → GwCall.cancel s.askq.headI ∈ pre) ∧
      (4 ≤ s.bidq.length → ∃ app, (quoteCycle s nb na nB nA).1.bidq = s.bidq.tail ++ app ∧
        ∀ j ∈ app, s.next_id ≤ j) ∧
      (4 ≤ s.askq.length → ∃ app, (quoteCycle s nb na nB nA).1.askq = s.askq.tail ++ app ∧
        ∀ j ∈ app, s.next_id ≤ j) ∧
      s.bids ⊆ (quoteCycle s nb na nB nA).1.bids ∧
      s.asks ⊆ (quoteCycle s nb na nB nA).1.asks := by
  have hT1a : (evictBid s).1.askq = s.askq := (evictBid_other s).2.2.1
  have hT1n : (evictBid s).1.next_id = s.next_id := (evictBid_other s).2.2.2.1
  have hT2b : (evictAsk (evictBid s).1).1.bidq = (evictBid s).1.bidq := (evictAsk_other _).2.2.1
  have hT2n : (evictAsk (evictBid s).1).1.next_id = s.next_id := by
    rw [(evictAsk_other _).2.2.2.1, hT1n]
  have hSB := submitSide_buy_fields (evictAsk (evictBid s).1).1
    (nb ≠ 0 ∧ 0 < remainingLong s) nB nb (min LOT_SIZE (remainingLong s))
  have hSA := submitSide_sell_fields (submitSide (evictAsk (evictBid s).1).1
      (nb ≠ 0 ∧ 0 < remainingLong s) nB Side.buy nb (min LOT_SIZE (remainingLong s))).1
    (na ≠ 0 ∧ 0 < remainingShort s) nA na (min LOT_SIZE (remainingShort s))
  have hstate : (quoteCycle s nb na nB nA).1 =
      (submitSide (submitSide (evictAsk (evictBid s).1).1 (nb ≠ 0 ∧ 0 < remainingLong s) nB
          Side.buy nb (min LOT_SIZE (remainingLong s))).1
        (na ≠ 0 ∧ 0 < remainingShort s) nA Side.sell na (min LOT_SIZE (remainingShort s))).1 := rfl
  have hacts : (quoteCycle s nb na nB nA).2 =
      ((evictBid s).2 ++ (evictAsk (evictBid s).1).2) ++
      ((submitSide (evictAsk (evictBid s).1).1 (nb ≠ 0 ∧ 0 < remainingLong s) nB Side.buy nb
          (min LOT_SIZE (remainingLong s))).2 ++
        (submitSide (submitSide (evictAsk (evictBid s).1).1 (nb ≠ 0 ∧ 0 < remainingLong s) nB
            Side.buy nb (min LOT_SIZE (remainingLong s))).1
          (na ≠ 0 ∧ 0 < remainingShort s) nA Side.sell na (min LOT_SIZE (remainingShort s))).2) := by
    simp only [quoteCycle, List.append_assoc]
  refine ⟨_, _, hacts, ?_, ?_, ?_, ?_, ?_, ?_, ?_, ?_⟩
  · intro c hc
    rcases List.mem_append.mp hc with hc | hc
    · exact evictBid_acts s c hc
    · exact evictAsk_acts _ c hc
  · intro c hc
    rcases List.mem_append.mp hc with hc | hc
    · obtain rfl := submitSide_acts _ _ _ _ _ _ c hc
      exact ⟨_, _, _, _, rfl⟩
    · obtain rfl := submitSide_acts _ _ _ _ _ _ c hc
      exact ⟨_, _, _, _, rfl⟩
  · intro h4
    refine List.mem_append_left _ ?_
    rw [(evictBid_full s h4).2]
    exact List.mem_singleton_self _
  · intro h4
    refine List.mem_append_right _ ?_
    rw [(evictAsk_full _ (by rw [hT1a]; exact h4)).2, hT1a]
    exact List.mem_singleton_self _
  · intro h4
    rw [hstate, hSA.2.1]
    rcases hSB.1 with hq | hq
    · refine ⟨[], ?_, ?_⟩
      · rw [hq, hT2b, (evictBid_full s h4).1, List.append_nil]
      · intro j hj
        exact absurd hj (List.not_mem_nil j)
    · refine ⟨[(evictAsk (evictBid s).1).1.next_id], ?_, ?_⟩
      · rw [hq, hT2b, (evictBid_full s h4).1]
      · intro j hj
        rw [List.mem_singleton] at hj
        subst hj
        rw [hT2n]
  · intro h4
    have h1 : (evictAsk (evictBid s).1).1.askq = s.askq.tail := by
      rw [(evictAsk_full _ (by rw [hT1a]; exact h4)).1, hT1a]
    rw [hstate]
    rcases hSA.1 with hq | hq
    · refine ⟨[], ?_, ?_⟩
      · rw [hq, hSB.2.1, h1, List.append_nil]
      · intro j hj
        exact absurd hj (List.not_mem_nil j)
    · refine ⟨[(submitSide (evictAsk (evictBid s).1).1 (nb ≠ 0 ∧ 0 < remainingLong s) nB
          Side.buy nb (min LOT_SIZE (remainingLong s))).1.next_id], ?_, ?_⟩
      · rw [hq, hSB.2.1, h1]
      · intro j hj
        rw [List.mem_singleton] at hj
        subst hj
        rw [← hT2n]
        exact hSB.2.2.1
  · rw [hstate]
    have e1 : s.bids = (evictBid s).1.bids := ((evictBid_other s).1).symm
    have e2 : (evictBid s).1.bids = (evictAsk (evictBid s).1).1.bids :=
      ((evictAsk_other _).1).symm
    rw [e1, e2]
    exact Finset.Subset.trans hSB.2.2.2.1 hSA.2.2.2.1
  · rw [hstate]
    have e1 : s.asks = (evictBid s).1.asks := ((evictBid_other s).2.1).symm
    have e2 : (evictBid s).1.asks = (evictAsk (evictBid s).1).1.asks :=
      ((evictAsk_other _).2.1).symm
    rw [e1, e2]
    exact Finset.Subset.trans hSB.2.2.2.2 hSA.2.2.2.2

/-! ### Claim C9 — queue capacity and eviction order -/

/-- The head of a nonempty list is a member. -/
lemma headI_mem (l : List ℕ) (h : l ≠ []) : l.headI ∈ l := by
  cases l with
  | nil => exact absurd rfl h
  | cons x xs => exact List.mem_cons_self x xs

/-- Claim C9: in every reachable state each side's queue holds at most 4
entries; in a quoting cycle the gateway calls are cancels followed by inserts,
with the oldest queued id of a side at capacity cancelled in the cancel block
and popped off the front of its queue before any insert; and a throttled
submit never appends to a queue already holding 4 entries. -/
theorem C9_queue_capacity (s : State) (h : Reachable s) :
    (s.bidq.length ≤ 4 ∧ s.askq.length ≤ 4) ∧
    (∀ nb na nB nA, ∃ pre post,
      (quoteCycle s nb na nB nA).2 = pre ++ post ∧
      (∀ c ∈ pre, ∃ i, c = GwCall.cancel i) ∧
      (∀ c ∈ post, ∃ i sd pr vl, c = GwCall.insert i sd pr vl) ∧
      (4 ≤ s.bidq.length → GwCall.cancel s.bidq.headI ∈ pre ∧
        ∃ app, (quoteCycle s nb na nB nA).1.bidq = s.bidq.tail ++ app) ∧
      (4 ≤ s.askq.length → GwCall.cancel s.askq.headI ∈ pre ∧
        ∃ app, (quoteCycle s nb na nB nA).1.askq = s.askq.tail ++ app)) ∧
    (∀ now id p v, 4 ≤ s.bidq.length →
      (send_throttled s now id Side.buy p v).1.bidq = s.bidq) ∧
    (∀ now id p v, 4 ≤ s.askq.length →
      (send_throttled s now id Side.sell p v).1.askq = s.askq) := by
  have hq := reachable_inv s h
  refine ⟨⟨hq.bidq_len, hq.askq_len⟩, ?_, ?_, ?_⟩
  · intro nb na nB nA
    obtain ⟨pre, post, h1, h2, h3, h4, h5, h6, h7, h8, h9⟩ := quoteCycle_struct s nb na nB nA
    refine ⟨pre, post, h1, h2, h3, ?_, ?_⟩
    · intro hlen
      obtain ⟨app, happ, -⟩ := h6 hlen
      exact ⟨h4 hlen, app, happ⟩
    · intro hlen
      obtain ⟨app, happ, -⟩ := h7 hlen
      exact ⟨h5 hlen, app, happ⟩
  · intro now id p v hlen
    exact (send_throttled_buy_full s now id p v hlen).1
  · intro now id p v hlen
    exact (send_throttled_sell_full s now id p v hlen).1

section RatKernelEvalB

attribute [local semireducible] Rat.add Rat.sub Rat.mul Rat.inv

/-- Witness for C9 at a reachable state with the bid queue at capacity (four
quoting cycles at constant prices), and a blocked submit there. -/
theorem C9_queue_capacity_witness :
    ((steps initState [Event.obookDyn 0 10000 10000 0 1 0 0,
        Event.obookDyn 0 10000 10000 0 1 (1/4) (1/4),
        Event.obookDyn 0 10000 10000 0 1 (1/2) (1/2),
        Event.obookDyn 0 10000 10000 0 1 (3/4) (3/4)]).bidq.length ≤ 4 ∧
      (steps initState [Event.obookDyn 0 10000 10000 0 1 0 0,
        Event.obookDyn 0 10000 10000 0 1 (1/4) (1/4),
        Event.obookDyn 0 10000 10000 0 1 (1/2) (1/2),
        Event.obookDyn 0 10000 10000 0 1 (3/4) (3/4)]).askq.length ≤ 4) ∧
    (send_throttled (steps initState [Event.obookDyn 0 10000 10000 0 1 0 0,
        Event.obookDyn 0 10000 10000 0 1 (1/4) (1/4),
        Event.obookDyn 0 10000 10000 0 1 (1/2) (1/2),
        Event.obookDyn 0 10000 10000 0 1 (3/4) (3/4)]) 1 99 Side.buy 9900 10).1.bidq =
      (steps initState [Event.obookDyn 0 10000 10000 0 1 0 0,
        Event.obookDyn 0 10000 10000 0 1 (1/4) (1/4),
        Event.obookDyn 0 10000 10000 0 1 (1/2) (1/2),
        Event.obookDyn 0 10000 10000 0 1 (3/4) (3/4)]).bidq := by
  have h := C9_queue_capacity (steps initState [Event.obookDyn 0 10000 10000 0 1 0 0,
    Event.obookDyn 0 10000 10000 0 1 (1/4) (1/4),
    Event.obookDyn 0 10000 10000 0 1 (1/2) (1/2),
    Event.obookDyn 0 10000 10000 0 1 (3/4) (3/4)]) ⟨_, rfl⟩
  exact ⟨h.1, h.2.2.1 1 99 9900 10 (by decide)⟩

end RatKernelEvalB

/-! ### Claim C10 — queue-to-set containment and side attribution -/

/-- Source `on_order_filled_message` never touches the tracker sets or queues. -/
lemma fill_tracker_fields (s : State) (id : ℕ) (v : ℤ) (now : ℚ) :
    (on_order_filled_message s id v now).bids = s.bids ∧
    (on_order_filled_message s id v now).asks = s.asks ∧
    (on_order_filled_message s id v now).bidq = s.bidq ∧
    (on_order_filled_message s id v now).askq = s.askq := ⟨rfl, rfl, rfl, rfl⟩

/-- Source `check_hedge` never touches the tracker sets or queues. -/
lemma check_hedge_tracker_fields (s : State) (now : ℚ) :
    (check_hedge s now).1.bids = s.bids ∧ (check_hedge s now).1.asks = s.asks ∧
    (check_hedge s now).1.bidq = s.bidq ∧ (check_hedge s now).1.askq = s.askq := by
  cases hs : s.hedge_time with
  | none =>
    simp only [check_hedge, hs]
    refine ⟨?_, ?_, ?_, ?_⟩ <;> trivial
  | some t =>
    simp only [check_hedge, hs]
    split
    · split
      · refine ⟨?_, ?_, ?_, ?_⟩ <;> trivial
      · refine ⟨?_, ?_, ?_, ?_⟩ <;> trivial
    · refine ⟨?_, ?_, ?_, ?_⟩ <;> trivial

/-- Both sets only grow along a quoting cycle. -/
lemma quoteCycle_sets_mono (s : State) (nb na : ℤ) (nB nA : ℚ) :
    s.bids ⊆ (quoteCycle s nb na nB nA).1.bids ∧
    s.asks ⊆ (quoteCycle s nb na nB nA).1.asks := by
  obtain ⟨-, -, -, -, -, -, -, -, -, h8, h9⟩ := quoteCycle_struct s nb na nB nA
  exact ⟨h8, h9⟩

/-- The regression window update never touches the tracker sets. -/
lemma regWindowUpdate_sets (s : State) (instrument : ℕ) (mid : ℤ) :
    (regWindowUpdate s instrument mid).bids = s.bids ∧
    (regWindowUpdate s instrument mid).asks = s.asks := by
  unfold regWindowUpdate
  split
  · exact ⟨rfl, rfl⟩
  · split
    · exact ⟨rfl, rfl⟩
    · exact ⟨rfl, rfl⟩

/-- Both sets only grow along each order-book handler. -/
lemma dyn_sets_mono (s : State) (instrument : ℕ) (b a : ℤ) (vol pf nB nA : ℚ) :
    s.bids ⊆ (dyn_on_order_book_update s instrument b a vol pf nB nA).1.bids ∧
    s.asks ⊆ (dyn_on_order_book_update s instrument b a vol pf nB nA).1.asks := by
  simp only [dyn_on_order_book_update]
  split
  · exact quoteCycle_sets_mono
      { s with recent_prices := pushWindow 50 s.recent_prices ((b + a).fdiv 2) } _ _ nB nA
  · exact ⟨Finset.Subset.refl _, Finset.Subset.refl _⟩

/-- Both sets only grow along the regression handler. -/
lemma reg_sets_mono (s : State) (instrument : ℕ) (b a : ℤ) (nB nA : ℚ) :
    s.bids ⊆ (reg_on_order_book_update s instrument b a nB nA).1.bids ∧
    s.asks ⊆ (reg_on_order_book_update s instrument b a nB nA).1.asks := by
  have hw := regWindowUpdate_sets s instrument ((b + a).fdiv 2)
  simp only [reg_on_order_book_update]
  split
  · exact ⟨Finset.Subset.refl _, Finset.Subset.refl _⟩
  · cases hm : calculate_hedge_slope (regWindowUpdate s instrument ((b + a).fdiv 2)).etf_prices
      (regWindowUpdate s instrument ((b + a).fdiv 2)).fut_prices with
    | none =>
      simp only [hm]
      rw [← hw.1, ← hw.2]
      exact ⟨Finset.Subset.refl _, Finset.Subset.refl _⟩
    | some r =>
      simp only [hm]
      split
      · have hmono := quoteCycle_sets_mono (regWindowUpdate s instrument ((b + a).fdiv 2))
        constructor
        · rw [← hw.1]
          exact (hmono _ _ _ _).1
        · rw [← hw.2]
          exact (hmono _ _ _ _).2
      · rw [← hw.1, ← hw.2]
        exact ⟨Finset.Subset.refl _, Finset.Subset.refl _⟩

/-- Claim C10: in every reachable state each queue is contained in its side's
set, but not conversely — evicting the oldest queued id at capacity removes it
from the queue while leaving it in the side's set, so a later fill for the
evicted id is still attributed through the set; and an id leaves a set only
through a zero-remaining status callback or an error callback (which replays
one). -/
theorem C10_queue_subset_set (s : State) (h : Reachable s) :
    ((∀ id ∈ s.bidq, id ∈ s.bids) ∧ (∀ id ∈ s.askq, id ∈ s.asks)) ∧
    (∀ nb na nB nA, 4 ≤ s.bidq.length →
      s.bidq.headI ∈ (quoteCycle s nb na nB nA).1.bids ∧
      s.bidq.headI ∉ (quoteCycle s nb na nB nA).1.bidq) ∧
    (∀ id v now, id ∈ s.bids →
      (on_order_filled_message s id v now).position = s.position + v) ∧
    (∀ id v now, id ∉ s.bids → id ∉ s.bidq → id ∈ s.asks →
      (on_order_filled_message s id v now).position = s.position - v) ∧
    (∀ id, id ∈ s.bids → ∀ e, id ∈ (step s e).1.bids ∨
      (∃ i fv fees, e = Event.status i fv 0 fees) ∨ (∃ i, e = Event.error i)) ∧
    (∀ id, id ∈ s.asks → ∀ e, id ∈ (step s e).1.asks ∨
      (∃ i fv fees, e = Event.status i fv 0 fees) ∨ (∃ i, e = Event.error i)) := by
  have hq := reachable_inv s h
  refine ⟨⟨hq.bidq_sub, hq.askq_sub⟩, ?_, ?_, ?_, ?_, ?_⟩
  · intro nb na nB nA hlen
    obtain ⟨pre, post, h1, h2, h3, h4, h5, h6, h7, h8, h9⟩ := quoteCycle_struct s nb na nB nA
    obtain ⟨app, happ, hfresh⟩ := h6 hlen
    have hne : s.bidq ≠ [] := by
      intro hnil
      rw [hnil] at hlen
      simp at hlen
    have hmem : s.bidq.headI ∈ s.bidq := headI_mem _ hne
    constructor
    · exact h8 (hq.bidq_sub _ hmem)
    · rw [happ]
      intro hcon
      rcases List.mem_append.mp hcon with hcon | hcon
      · cases hbq : s.bidq with
        | nil => exact hne hbq
        | cons x xs =>
          rw [hbq] at hcon
          simp only [List.headI, List.tail_cons] at hcon
          have hnd := hq.bidq_nodup
          rw [hbq] at hnd
          exact (List.nodup_cons.mp hnd).1 hcon
      · have hlt := hq.bidq_lt _ hmem
        have hge := hfresh _ hcon
        omega
  · intro id v now hid
    simp only [on_order_filled_message, if_pos (Or.inl hid)]
  · intro id v now h1 h2 h3
    have hb : ¬(id ∈ s.bids ∨ id ∈ s.bidq) := by tauto
    simp only [on_order_filled_message, if_neg hb, if_pos (Or.inl h3)]
  · intro id hid e
    cases e with
    | obookDyn instrument b a vol pf nB nA =>
      exact Or.inl ((dyn_sets_mono s instrument b a vol pf nB nA).1 hid)
    | obookReg instrument b a nB nA =>
      exact Or.inl ((reg_sets_mono s instrument b a nB nA).1 hid)
    | fill i v now =>
      left
      rw [show (step s (Event.fill i v now)).1 = on_order_filled_message s i v now from rfl,
        (fill_tracker_fields s i v now).1]
      exact hid
    | status i fv r fees =>
      by_cases hr : r = 0
      · subst hr
        exact Or.inr (Or.inl ⟨i, fv, fees, rfl⟩)
      · left
        simp only [step, on_order_status_message, if_neg hr]
        exact hid
    | error i =>
      exact Or.inr (Or.inr ⟨i, rfl⟩)
    | hedgeCheck now =>
      left
      rw [show (step s (Event.hedgeCheck now)).1 = (check_hedge s now).1 from rfl,
        (check_hedge_tracker_fields s now).1]
      exact hid
    | timedCancel ts =>
      exact Or.inl hid
  · intro id hid e
    cases e with
    | obookDyn instrument b a vol pf nB nA =>
      exact Or.inl ((dyn_sets_mono s instrument b a vol pf nB nA).2 hid)
    | obookReg instrument b a nB nA =>
      exact Or.inl ((reg_sets_mono s instrument b a nB nA).2 hid)
    | fill i v now =>
      left
      rw [show (step s (Event.fill i v now)).1 = on_order_filled_message s i v now from rfl,
        (fill_tracker_fields s i v now).2.1]
      exact hid
    | status i fv r fees =>
      by_cases hr : r = 0
      · subst hr
        exact Or.inr (Or.inl ⟨i, fv, fees, rfl⟩)
      · left
        simp only [step, on_order_status_message, if_neg hr]
        exact hid
    | error i =>
      exact Or.inr (Or.inr ⟨i, rfl⟩)
    | hedgeCheck now =>
      left
      rw [show (step s (Event.hedgeCheck now)).1 = (check_hedge s now).1 from rfl,
        (check_hedge_tracker_fields s now).2.1]
      exact hid
    | timedCancel ts =>
      exact Or.inl hid

section RatKernelEvalC

attribute [local semireducible] Rat.add Rat.sub Rat.mul Rat.inv

/-- Witness for C10 at the four-cycle state: the oldest bid id stays in the
bid set but leaves the bid queue when the fifth cycle evicts it. -/
theorem C10_queue_subset_set_witness :
    (steps initState [Event.obookDyn 0 10000 10000 0 1 0 0,
        Event.obookDyn 0 10000 10000 0 1 (1/4) (1/4),
        Event.obookDyn 0 10000 10000 0 1 (1/2) (1/2),
        Event.obookDyn 0 10000 10000 0 1 (3/4) (3/4)]).bidq.headI ∈
      (quoteCycle (steps initState [Event.obookDyn 0 10000 10000 0 1 0 0,
        Event.obookDyn 0 10000 10000 0 1 (1/4) (1/4),
        Event.obookDyn 0 10000 10000 0 1 (1/2) (1/2),
        Event.obookDyn 0 10000 10000 0 1 (3/4) (3/4)]) 9900 10100 1 1).1.bids ∧
    (steps initState [Event.obookDyn 0 10000 10000 0 1 0 0,
        Event.obookDyn 0 10000 10000 0 1 (1/4) (1/4),
        Event.obookDyn 0 10000 10000 0 1 (1/2) (1/2),
        Event.obookDyn 0 10000 10000 0 1 (3/4) (3/4)]).bidq.headI ∉
      (quoteCycle (steps initState [Event.obookDyn 0 10000 10000 0 1 0 0,
        Event.obookDyn 0 10000 10000 0 1 (1/4) (1/4),
        Event.obookDyn 0 10000 10000 0 1 (1/2) (1/2),
        Event.obookDyn 0 10000 10000 0 1 (3/4) (3/4)]) 9900 10100 1 1).1.bidq :=
  (C10_queue_subset_set (steps initState [Event.obookDyn 0 10000 10000 0 1 0 0,
      Event.obookDyn 0 10000 10000 0 1 (1/4) (1/4),
      Event.obookDyn 0 10000 10000 0 1 (1/2) (1/2),
      Event.obookDyn 0 10000 10000 0 1 (3/4) (3/4)]) ⟨_, rfl⟩).2.1 9900 10100 1 1 (by decide)

end RatKernelEvalC

/-! ### Claim C2 — the rate limiter -/

/-- The head of a nonempty list, as an indexed element. -/
lemma headI_eq_getElem (l : List ℚ) (h : 0 < l.length) : l.headI = l[0] := by
  cases l with
  | nil => simp at h
  | cons x xs => rfl

/-- The acceptance guard, unfolded to a proposition. -/
lemma throttler_allow_iff (deq : List ℚ) (now : ℚ) :
    throttler_allow deq now = true ↔ ¬(deq.length = 47 ∧ now - deq.headI < 1) := by
  simp only [throttler_allow, Bool.not_eq_true', Bool.and_eq_false_iff, beq_eq_false_iff_ne,
    ne_eq, decide_eq_false_iff_not, not_lt, not_and]
  tauto

/-- Appending through the bounded deque tracks the last 47 of the full
history. -/
lemma lastN_record (P : List ℚ) (x : ℚ) :
    throttler_record (lastN 47 P) x = lastN 47 (P ++ [x]) := by
  by_cases h : 47 ≤ P.length
  · have hlen : (lastN 47 P).length = 47 := by
      simp only [lastN, List.length_drop]
      omega
    simp only [throttler_record, hlen]
    rw [if_pos (by omega)]
    simp only [lastN, List.tail_drop, List.length_append, List.length_singleton]
    rw [List.drop_append_of_le_length (by omega)]
    have hidx : P.length - 47 + 1 = P.length + 1 - 47 := by omega
    rw [hidx]
  · have hlen : lastN 47 P = P := by
      simp only [lastN]
      have h0 : P.length - 47 = 0 := by omega
      rw [h0, List.drop_zero]
    rw [hlen]
    simp only [throttler_record]
    rw [if_neg (by omega)]
    simp only [lastN, List.length_append, List.length_singleton]
    have h0 : P.length + 1 - 47 = 0 := by omega
    rw [h0, List.drop_zero]

/-- The head of the bounded deque is the 47th-most-recent accepted time. -/
lemma lastN_headI (P : List ℚ) (j : ℕ) (hj : j + 47 = P.length) :
    (lastN 47 P).headI = P[j] := by
  have h0 : 0 < (lastN 47 P).length := by
    simp only [lastN, List.length_drop]
    omega
  rw [headI_eq_getElem _ h0]
  have hj' : j = P.length - 47 := by omega
  subst hj'
  simp only [lastN, List.getElem_drop, Nat.add_zero]

/-- Growing a spaced history by one entry at least one second after the
47th-most-recent entry keeps it spaced. -/
lemma spaced_concat (P : List ℚ) (x : ℚ) (hP : Spaced P)
    (hx : ∀ j : ℕ, (hj : j + 47 = P.length) → P[j] + 1 ≤ x) : Spaced (P ++ [x]) := by
  intro i hi
  have hi' : i + 47 < P.length + 1 := by
    simpa using hi
  by_cases hlt : i + 47 < P.length
  · have h1 : (P ++ [x])[i] = P[i] := List.getElem_append_left (by omega)
    have h2 : (P ++ [x])[i + 47] = P[i + 47] := List.getElem_append_left hlt
    rw [h1, h2]
    exact hP i hlt
  · have heq : i + 47 = P.length := by omega
    have h1 : (P ++ [x])[i] = P[i] := List.getElem_append_left (by omega)
    have h2 : (P ++ [x])[i + 47] = x := by
      rw [List.getElem_append_right (by omega)]
      simp [heq]
    rw [h1, h2]
    exact hx i heq

/-- A spaced history stays spaced after dropping its head. -/
lemma spaced_tail (a : ℚ) (l : List ℚ) (h : Spaced (a :: l)) : Spaced l := by
  intro i hi
  have h2 := h (i + 1) (by simp only [List.length_cons]; omega)
  simp only [show i + 1 + 47 = i + 47 + 1 from by omega, List.getElem_cons_succ] at h2
  exact h2

/-- The accepted sub-sequence of a monotone run is a spaced, sorted extension
of the accepted history. -/
lemma run_spaced : ∀ ts : List ℚ, ts.Pairwise (· ≤ ·) →
    ∀ P : List ℚ, (∀ x ∈ P, ∀ y ∈ ts, x ≤ y) → P.Pairwise (· ≤ ·) → Spaced P →
      Spaced (P ++ throttlerRun (lastN 47 P) ts) ∧
      (P ++ throttlerRun (lastN 47 P) ts).Pairwise (· ≤ ·) := by
  intro ts
  induction ts with
  | nil =>
    intro _ P hle hPs hPd
    simp only [throttlerRun, List.append_nil]
    exact ⟨hPd, hPs⟩
  | cons now rest ih =>
    intro hts P hle hPs hPd
    have hnow : ∀ y ∈ rest, now ≤ y := (List.pairwise_cons.mp hts).1
    have hrest : rest.Pairwise (· ≤ ·) := (List.pairwise_cons.mp hts).2
    by_cases hal : throttler_allow (lastN 47 P) now
    · have heq : throttlerRun (lastN 47 P) (now :: rest) =
          now :: throttlerRun (throttler_record (lastN 47 P) now) rest := by
        simp only [throttlerRun, if_pos hal]
      rw [heq, lastN_record]
      have hassoc : P ++ now :: throttlerRun (lastN 47 (P ++ [now])) rest =
          (P ++ [now]) ++ throttlerRun (lastN 47 (P ++ [now])) rest := by
        simp
      rw [hassoc]
      apply ih hrest (P ++ [now])
      · intro x hx y hy
        rcases List.mem_append.mp hx with hx | hx
        · exact hle x hx y (List.mem_cons_of_mem _ hy)
        · rw [List.mem_singleton] at hx
          subst hx
          exact hnow y hy
      · rw [List.pairwise_append]
        refine ⟨hPs, List.pairwise_singleton _ _, ?_⟩
        intro x hx y hy
        rw [List.mem_singleton] at hy
        rw [hy]
        exact hle x hx now (List.mem_cons_self _ _)
      · apply spaced_concat P now hPd
        intro j hj
        have hhead := lastN_headI P j hj
        have hlen : (lastN 47 P).length = 47 := by
          simp only [lastN, List.length_drop]
          omega
        have hiff := (throttler_allow_iff (lastN 47 P) now).mp hal
        have hnlt : ¬(now - (lastN 47 P).headI < 1) := by
          intro hcon
          exact hiff ⟨hlen, hcon⟩
        rw [hhead] at hnlt
        linarith
    · have heq : throttlerRun (lastN 47 P) (now :: rest) =
          throttlerRun (lastN 47 P) rest := by
        simp only [throttlerRun]
        rw [if_neg hal]
      rw [heq]
      apply ih hrest P ?_ hPs hPd
      intro x hx y hy
      exact hle x hx y (List.mem_cons_of_mem _ hy)

/-- A sorted, spaced sequence has at most 47 entries inside any half-open
window `(t, t + 1]`. -/
lemma spaced_window : ∀ A : List ℚ, A.Pairwise (· ≤ ·) → Spaced A → ∀ t : ℚ,
    A.countP (fun x => decide (t < x ∧ x ≤ t + 1)) ≤ 47 := by
  intro A
  induction A with
  | nil =>
    intro _ _ t
    rw [List.countP_nil]
    exact Nat.zero_le _
  | cons a l IH =>
    intro hs hd t
    by_cases hpa : t < a ∧ a ≤ t + 1
    · rcases le_or_lt (a :: l).length 47 with hlen | hlen
      · exact le_trans (List.countP_le_length _) hlen
      · have hd0 := hd 0 (by omega)
        simp only [Nat.zero_add, List.getElem_cons_zero] at hd0
        have hdrop : ((a :: l).drop 47).countP (fun x => decide (t < x ∧ x ≤ t + 1)) = 0 := by
          rw [List.countP_eq_zero]
          intro x hx
          obtain ⟨k, hk, hxe⟩ := List.mem_iff_getElem.mp hx
          have hklen : 47 + k < (a :: l).length := by
            simp only [List.length_drop] at hk
            omega
          have hxe' : x = (a :: l)[47 + k] := by
            rw [← hxe]
            exact List.getElem_drop _
          have hge : (a :: l)[47] ≤ (a :: l)[47 + k] := by
            rcases Nat.eq_zero_or_pos k with rfl | hkpos
            · simp
            · exact List.pairwise_iff_getElem.mp hs 47 (47 + k) (by omega) hklen (by omega)
          have hgt : t + 1 < x := by
            rw [hxe']
            have hmid : t + 1 < (a :: l)[47] := by
              push_cast
              linarith [hpa.1, hd0]
            linarith
          simp only [decide_eq_true_eq, not_and, not_le]
          intro _
          exact hgt
        calc (a :: l).countP (fun x => decide (t < x ∧ x ≤ t + 1))
            = ((a :: l).take 47).countP (fun x => decide (t < x ∧ x ≤ t + 1)) +
              ((a :: l).drop 47).countP (fun x => decide (t < x ∧ x ≤ t + 1)) := by
              rw [← List.countP_append, List.take_append_drop]
          _ ≤ 47 + 0 := by
              refine Nat.add_le_add ?_ (le_of_eq hdrop)
              refine le_trans (List.countP_le_length _) ?_
              rw [List.length_take]
              omega
          _ = 47 := rfl
    · rw [List.countP_cons]
      have hna : ¬((fun x => decide (t < x ∧ x ≤ t + 1)) a = true) := by
        simp only [decide_eq_true_eq]
        exact hpa
      rw [if_neg hna, Nat.add_zero]
      exact IH (List.pairwise_cons.mp hs).2 (spaced_tail a l hd) t

/-- Claim C2: over any monotone sequence of call times, the throttler accepts
at most 47 calls inside any trailing one-second window `(t, t + 1]`; a
rejected call leaves the recorded timestamps exactly as they were; and a
rejected `send_throttled` changes no state at all — queues, sets and
position included — and performs no gateway call. -/
theorem C2_rate_limit (ts : List ℚ) (hts : ts.Pairwise (· ≤ ·)) (t : ℚ) :
    (throttlerRun [] ts).countP (fun x => decide (t < x ∧ x ≤ t + 1)) ≤ 47 ∧
    (∀ (deq : List ℚ) (now : ℚ) (rest : List ℚ), throttler_allow deq now = false →
      throttlerRun deq (now :: rest) = throttlerRun deq rest) ∧
    (∀ (s : State) (now : ℚ) (id : ℕ) (side : Side) (p v : ℤ),
      throttler_allow s.send_times now = false →
      send_throttled s now id side p v = (s, [])) := by
  refine ⟨?_, ?_, ?_⟩
  · have h := run_spaced ts hts [] (by simp) (by simp)
      (fun i hi => absurd hi (by simp))
    have hA : ([] : List ℚ) ++ throttlerRun (lastN 47 []) ts = throttlerRun [] ts := by
      simp [lastN]
    rw [hA] at h
    exact spaced_window _ h.2 h.1 t
  · intro deq now rest hal
    simp only [throttlerRun]
    rw [if_neg (by simp [hal])]
  · intro s now id side p v hal
    simp only [send_throttled]
    rw [if_neg (by simp [hal])]

section RatKernelEvalD

attribute [local semireducible] Rat.add Rat.sub Rat.mul Rat.inv

/-- Witness for C2: a short monotone run stays under the bound, and a send
against a deque holding 47 timestamps from half a second ago is rejected
with no state change and no gateway call. -/
theorem C2_rate_limit_witness :
    (throttlerRun [] [0, 1/2, 2]).countP (fun x => decide ((0:ℚ) < x ∧ x ≤ 0 + 1)) ≤ 47 ∧
    send_throttled { initState with send_times := List.replicate 47 (0:ℚ) } (1/2) 9 Side.buy
        9900 10 =
      ({ initState with send_times := List.replicate 47 (0:ℚ) }, []) := by
  have h := C2_rate_limit [0, 1/2, 2] (by decide) 0
  exact ⟨h.1, h.2.2 { initState with send_times := List.replicate 47 (0:ℚ) } (1/2) 9 Side.buy
    9900 10 (by decide)⟩

end RatKernelEvalD

/-! ### Claim C4 — the regression scenario -/

section RatKernelEvalE

attribute [local semireducible] Rat.add Rat.sub Rat.mul Rat.inv

/-- Counterexample for C4 as stated: with the ETF window `[100, ..., 109]`
and the Future window exactly twice it, the fitted slope is exactly 2, but
the spread series `etf[i] - 2 * fut[i] = -3 * etf[i]` is nowhere near 0 (its
first sample is -300), and the latest spread is classified BELOW
`mean - stddev`, not inside the band, so the quotes are not the symmetric
normal-spread pair. -/
theorem C4_counterexample :
    calculate_hedge_slope [100, 101, 102, 103, 104, 105, 106, 107, 108, 109]
      [200, 202, 204, 206, 208, 210, 212, 214, 216, 218] = some 2 ∧
    (regSpread [100, 101, 102, 103, 104, 105, 106, 107, 108, 109]
      [200, 202, 204, 206, 208, 210, 212, 214, 216, 218] 2).head? = some (-300) ∧
    classifySpread (regSpread [100, 101, 102, 103, 104, 105, 106, 107, 108, 109]
      [200, 202, 204, 206, 208, 210, 212, 214, 216, 218] 2) ≠ SpreadClass.normal := by
  refine ⟨by decide, by decide, by decide⟩

/-- Claim C4 (amended): in the scenario the slope is exactly 2.0; the spread
series equals `-3 * etf[i]` samplewise (about -300, not about 0); the latest
spread -327 lies strictly below `mean - stddev` of the series, so the
classification is the ETF-cheap branch, which quotes the asymmetric
conservative bid and normal ask (at mid-price 100000: bid 99800, ask 100100,
versus 99900/100100 for the symmetric normal branch). -/
theorem C4_regression_scenario :
    calculate_hedge_slope [100, 101, 102, 103, 104, 105, 106, 107, 108, 109]
      [200, 202, 204, 206, 208, 210, 212, 214, 216, 218] = some 2 ∧
    regSpread [100, 101, 102, 103, 104, 105, 106, 107, 108, 109]
      [200, 202, 204, 206, 208, 210, 212, 214, 216, 218] 2 =
      [100, 101, 102, 103, 104, 105, 106, 107, 108, 109].map (fun e : ℚ => -3 * e) ∧
    classifySpread (regSpread [100, 101, 102, 103, 104, 105, 106, 107, 108, 109]
      [200, 202, 204, 206, 208, 210, 212, 214, 216, 218] 2) = SpreadClass.cheap ∧
    regPrices SpreadClass.cheap 100000 = (99800, 100100) ∧
    regPrices SpreadClass.normal 100000 = (99900, 100100) := by
  refine ⟨by decide, by decide, by decide, by decide, by decide⟩

end RatKernelEvalE

/-! ### Claim C8 — tick alignment of emitted prices -/

/-- The square-root-free rendering of the band comparisons in
`classifySpread` is exact: for a real standard deviation `√v`,
`mean + √v < a` holds exactly when `a` exceeds the mean and its squared
excess exceeds the variance. -/
lemma sqrt_band_iff (a m v : ℝ) (hv : 0 ≤ v) :
    m + Real.sqrt v < a ↔ (0 < a - m ∧ v < (a - m)^2) := by
  have hs := Real.sqrt_nonneg v
  have hsq := Real.sq_sqrt hv
  constructor
  · intro h
    constructor
    · linarith
    · nlinarith
  · rintro ⟨h1, h2⟩
    by_contra hcon
    push_neg at hcon
    nlinarith

/-- Rounding to the tick yields a multiple of the tick. -/
lemma dvd_adjust (p : ℚ) : (100:ℤ) ∣ adjust_price p := ⟨⌊p / 100⌋, mul_comm _ _⟩

/-- Both volatility-variant candidate prices are tick multiples. -/
lemma dynPrices_aligned (position mid : ℤ) (vol pf : ℚ) :
    (100:ℤ) ∣ (dynPrices position mid vol pf).1 ∧
    (100:ℤ) ∣ (dynPrices position mid vol pf).2 := by
  simp only [dynPrices]
  split
  · exact ⟨dvd_adjust _, dvd_adjust _⟩
  · split
    · exact ⟨dvd_adjust _, dvd_adjust _⟩
    · exact ⟨dvd_adjust _, dvd_adjust _⟩

/-- Both regression-variant quote prices are tick multiples. -/
lemma regPrices_aligned (cls : SpreadClass) (mid : ℤ) :
    (100:ℤ) ∣ (regPrices cls mid).1 ∧ (100:ℤ) ∣ (regPrices cls mid).2 := by
  simp only [regPrices]
  exact ⟨dvd_adjust _, dvd_adjust _⟩

/-- Every gateway call of a quoting tail carries a tick-aligned price when
its two candidate prices are tick-aligned. -/
lemma quoteCycle_aligned (s : State) (nb na : ℤ) (nB nA : ℚ)
    (hb : (100:ℤ) ∣ nb) (ha : (100:ℤ) ∣ na) :
    ∀ c ∈ (quoteCycle s nb na nB nA).2, priceAligned c := by
  intro c hc
  have hacts : (quoteCycle s nb na nB nA).2 = (evictBid s).2 ++
      ((evictAsk (evictBid s).1).2 ++
      ((submitSide (evictAsk (evictBid s).1).1 (nb ≠ 0 ∧ 0 < remainingLong s) nB Side.buy nb
          (min LOT_SIZE (remainingLong s))).2 ++
        (submitSide (submitSide (evictAsk (evictBid s).1).1 (nb ≠ 0 ∧ 0 < remainingLong s) nB
            Side.buy nb (min LOT_SIZE (remainingLong s))).1
          (na ≠ 0 ∧ 0 < remainingShort s) nA Side.sell na
          (min LOT_SIZE (remainingShort s))).2)) := by
    simp only [quoteCycle, List.append_assoc]
  rw [hacts] at hc
  rcases List.mem_append.mp hc with hc | hc
  · obtain ⟨i, rfl⟩ := evictBid_acts s c hc
    trivial
  rcases List.mem_append.mp hc with hc | hc
  · obtain ⟨i, rfl⟩ := evictAsk_acts _ c hc
    trivial
  rcases List.mem_append.mp hc with hc | hc
  · obtain rfl := submitSide_acts _ _ _ _ _ _ c hc
    exact hb
  · obtain rfl := submitSide_acts _ _ _ _ _ _ c hc
    exact ha

/-- Every gateway call of the volatility handler carries an aligned price. -/
lemma dyn_aligned (s : State) (instrument : ℕ) (b a : ℤ) (vol pf nB nA : ℚ) :
    ∀ c ∈ (dyn_on_order_book_update s instrument b a vol pf nB nA).2, priceAligned c := by
  intro c hc
  simp only [dyn_on_order_book_update] at hc
  by_cases hg : instrument = FUTURE ∧ 0 < b ∧ 0 < a
  · rw [if_pos hg] at hc
    exact quoteCycle_aligned _ _ _ _ _ (dynPrices_aligned _ _ _ _).1
      (dynPrices_aligned _ _ _ _).2 c hc
  · rw [if_neg hg] at hc
    exact absurd hc (List.not_mem_nil c)

/-- Every gateway call of the regression handler carries an aligned price. -/
lemma reg_aligned (s : State) (instrument : ℕ) (b a : ℤ) (nB nA : ℚ) :
    ∀ c ∈ (reg_on_order_book_update s instrument b a nB nA).2, priceAligned c := by
  intro c hc
  simp only [reg_on_order_book_update] at hc
  by_cases hg : b ≤ 0 ∧ a ≤ 0
  · rw [if_pos hg] at hc
    exact absurd hc (List.not_mem_nil c)
  · rw [if_neg hg] at hc
    cases hm : calculate_hedge_slope
        (regWindowUpdate s instrument ((b + a).fdiv 2)).etf_prices
        (regWindowUpdate s instrument ((b + a).fdiv 2)).fut_prices with
    | none =>
      simp only [hm] at hc
      exact absurd hc (List.not_mem_nil c)
    | some r =>
      simp only [hm] at hc
      by_cases hg2 : instrument = FUTURE ∧
          0 < (regWindowUpdate s instrument ((b + a).fdiv 2)).etf_prices.length ∧
          0 < (regWindowUpdate s instrument ((b + a).fdiv 2)).fut_prices.length
      · rw [if_pos hg2] at hc
        exact quoteCycle_aligned _ _ _ _ _ (regPrices_aligned _ _).1
          (regPrices_aligned _ _).2 c hc
      · rw [if_neg hg2] at hc
        exact absurd hc (List.not_mem_nil c)

/-- Every gateway call of the hedge check carries an aligned price. -/
lemma check_hedge_aligned (s : State) (now : ℚ) :
    ∀ c ∈ (check_hedge s now).2, priceAligned c := by
  intro c hc
  cases hs : s.hedge_time with
  | none =>
    simp only [check_hedge, hs] at hc
    exact absurd hc (List.not_mem_nil c)
  | some t =>
    simp only [check_hedge, hs] at hc
    split at hc
    · split at hc
      · rw [List.mem_singleton] at hc
        subst hc
        show (100:ℤ) ∣ MAX_ASK_NEAREST_TICK
        decide
      · rw [List.mem_singleton] at hc
        subst hc
        show (100:ℤ) ∣ MIN_BID_NEAREST_TICK
        decide
    · exact absurd hc (List.not_mem_nil c)

/-- Claim C8 (amended): `adjust_price` rounds down to a multiple of the tick:
its result is a tick multiple, at most its input, within one tick of it, and
on a non-negative input it is non-negative and equals `p - (p mod 100)` (the
mod spelled out as `p - 100 * ⌊p / 100⌋`); both hedge price constants are
non-negative tick multiples; and every price carried by any gateway call of
any handler is a tick multiple.  The amendment: a quote price need NOT be
non-negative — see the counterexample, where an extreme volatility makes the
candidate bid negative and the negative rounded price is still sent. -/
theorem C8_tick_alignment :
    (∀ p : ℚ, (100:ℤ) ∣ adjust_price p ∧ ((adjust_price p : ℚ) ≤ p) ∧
      (p < (adjust_price p : ℚ) + 100) ∧
      (0 ≤ p → 0 ≤ adjust_price p ∧
        ((adjust_price p : ℚ)) = p - (p - 100 * (⌊p / 100⌋ : ℚ)))) ∧
    ((100:ℤ) ∣ MAX_ASK_NEAREST_TICK ∧ 0 ≤ MAX_ASK_NEAREST_TICK ∧
      (100:ℤ) ∣ MIN_BID_NEAREST_TICK ∧ 0 ≤ MIN_BID_NEAREST_TICK) ∧
    (∀ (s : State) (e : Event), ∀ c ∈ (step s e).2, priceAligned c) := by
  refine ⟨?_, ⟨by decide, by decide, by decide, by decide⟩, ?_⟩
  · intro p
    have hfl := Int.floor_le (p / 100)
    have hfu := Int.lt_floor_add_one (p / 100)
    refine ⟨dvd_adjust p, ?_, ?_, ?_⟩
    · show ((⌊p / 100⌋ * 100 : ℤ) : ℚ) ≤ p
      push_cast
      linarith
    · show p < ((⌊p / 100⌋ * 100 : ℤ) : ℚ) + 100
      push_cast
      linarith
    · intro hp
      constructor
      · have h0 : (0:ℤ) ≤ ⌊p / 100⌋ := Int.floor_nonneg.mpr (by positivity)
        have : (0:ℤ) ≤ ⌊p / 100⌋ * 100 := by positivity
        exact this
      · show ((⌊p / 100⌋ * 100 : ℤ) : ℚ) = p - (p - 100 * (⌊p / 100⌋ : ℚ))
        push_cast
        ring
  · intro s e c hc
    cases e with
    | obookDyn instrument b a vol pf nB nA => exact dyn_aligned s instrument b a vol pf nB nA c hc
    | obookReg instrument b a nB nA => exact reg_aligned s instrument b a nB nA c hc
    | fill id v now => exact absurd hc (List.not_mem_nil c)
    | status id fv r fees => exact absurd hc (List.not_mem_nil c)
    | error id => exact absurd hc (List.not_mem_nil c)
    | hedgeCheck now => exact check_hedge_aligned s now c hc
    | timedCancel ts =>
      rw [show (step s (Event.timedCancel ts)).2 = (cancel_order_run ts s.cancel_times).2
        from rfl, cancel_order_run_acts_nil] at hc
      exact absurd hc (List.not_mem_nil c)

section RatKernelEvalF

attribute [local semireducible] Rat.add Rat.sub Rat.mul Rat.inv

/-- Witness for C8 at concrete inputs: the round-down identity at `p = 250`,
and alignment of a hedge order actually emitted by a `check_hedge` step. -/
theorem C8_tick_alignment_witness :
    ((0:ℚ) ≤ 250 ∧ 0 ≤ adjust_price 250 ∧
      ((adjust_price 250 : ℚ)) = 250 - (250 - 100 * (⌊(250:ℚ) / 100⌋ : ℚ))) ∧
    priceAligned (GwCall.hedge 1 Side.buy MAX_ASK_NEAREST_TICK 5) := by
  constructor
  · have h := (C8_tick_alignment.1 250).2.2.2 (by norm_num)
    exact ⟨by norm_num, h.1, h.2⟩
  · exact C8_tick_alignment.2.2 { initState with hedge_balance := 15, hedge_time := some 0 }
      (Event.hedgeCheck 59) (GwCall.hedge 1 Side.buy MAX_ASK_NEAREST_TICK 5) (by decide)

/-- Counterexample for C8 as stated ("non-negative"): after a FUTURE update
at mid-price 1000001 and then one at mid-price 1 (volatility 500000, exactly
`np.std([1000001, 1])`), the volatility handler's candidate bid is about
-249999 and the emitted insert carries the NEGATIVE tick-aligned price
-250000. -/
theorem C8_counterexample :
    GwCall.insert 3 Side.buy (-250000) 10 ∈
      (stepsActs initState [Event.obookDyn 0 1000001 1000001 0 1 0 0,
        Event.obookDyn 0 1 1 500000 1 (1/2) (1/2)]).2 ∧
    (-250000 : ℤ) < 0 := ⟨by decide, by decide⟩

end RatKernelEvalF
